import Mathlib

/-! RamFuzz: the harness-declaration generator of `lib/RamFuzz.cpp`

A shallow embedding of the match callback `RamFuzz::run`, of the member filter
`skip` and of the identifier mangler `valident`, followed by the properties of
the generated text.

Modelling conventions.

* `std::string` is a Lean `String`; the mangler works on single `char`s and its
  keys are all ASCII, so a character-wise map agrees with the byte-wise loop.
* `std::ostream &out` is the text written so far; `out << x` appends.  An
  `unsigned` is written in decimal (the stream is in its default state).
* `unsigned` arithmetic wraps modulo `2 ^ 32`.
* `std::unordered_map<string, unsigned>` is only ever accessed through
  `operator[]`, which value-initialises a missing key to `0`; it is a total
  function `String → Nat` that is `0` everywhere at the start.
* The declaration nodes of the front end are records carrying exactly what the code
  reads from them.
* The AST is a tree of declarations; the clang matchers used by `ClassMatcher`
  are embedded by their documented meaning (`hasAncestor` over the chain of
  ancestors, `hasDescendant` over the proper descendants), and the match finder
  visits each node before the declarations nested in it.
* The front end behind the two entry points `ramfuzz` is a parameter: what
  `runToolOnCode` or `ClangTool::run` report and the trees they hand to the
  match finder.
-/

set_option maxRecDepth 8000

namespace RamFuzz

/-! ## Declaration model (what the code reads from the clang AST) -/

/-- The access specifiers of clang (`AccessSpecifier`). -/
inductive AccessSpecifier where
  | AS_public
  | AS_protected
  | AS_private
  | AS_none
  deriving DecidableEq

/-- The dynamic class of a `CXXMethodDecl` node, as tested by `isa<...>`. -/
inductive MethodKind where
  | CXXMethod
  | CXXConstructor
  | CXXDestructor
  | CXXConversion
  deriving DecidableEq

/-- A member function node: the observations `skip` and `run` make of it. -/
structure CXXMethodDecl where
  /-- The result of `getNameAsString()`. -/
  nameAsString : String
  /-- The node class (`isa<CXXConstructorDecl>`, `isa<CXXDestructorDecl>`). -/
  kind : MethodKind
  /-- The result of `getAccess()`. -/
  access : AccessSpecifier
  /-- The result of `isInstance()`, false for a static member function. -/
  isInstance : Bool
  deriving DecidableEq

/-- A class node: the observations `run` makes of it. -/
structure CXXRecordDecl where
  /-- The result of `getQualifiedNameAsString()`. -/
  qualifiedNameAsString : String
  /-- The result of `getNameAsString()`. -/
  nameAsString : String
  /-- The range `methods()`, in declaration order. -/
  methods : List CXXMethodDecl
  deriving DecidableEq

/-- A match result, as far as `run` reads it: the outcome of
`Result.Nodes.getNodeAs<CXXRecordDecl>("class")`, which is the bound class node
or a null pointer. -/
structure MatchResult where
  /-- The node bound to `class`, if there is one. -/
  getNodeAsClass : Option CXXRecordDecl

/-! ## `skip` (lines 28-31) -/

/-- The member filter `skip`: true for a destructor, a non-public member, or a
static member. -/
def skip (M : CXXMethodDecl) : Bool :=
  M.kind == MethodKind.CXXDestructor || M.access != AccessSpecifier.AS_public ||
    !M.isInstance

/-! ## `valident` (lines 67-82) -/

/-- The static substitution table of `valident`, in initializer order. -/
def valident.table : List (Char × Char) :=
  [(' ', '_'), ('=', 'e'), ('+', 'p'), ('-', 'm'), ('*', 's'),
   ('/', 'd'), ('%', 'c'), ('&', 'a'), ('|', 'f'), ('^', 'r'),
   ('<', 'l'), ('>', 'g'), ('~', 't'), ('!', 'b'), ('[', 'h'),
   (']', 'i'), ('(', 'j'), (')', 'k'), ('.', 'n')]

/-- One iteration of the loop of `valident`: `table.find(c)`, and the
assignment `c = found->second` when the key is found. -/
def valident.visit (c : Char) : Char :=
  match valident.table.lookup c with
  | some d => d
  | none => c

/-- The loop `for (char &c : transf)` over the characters still to visit. -/
def valident.loop : List Char → List Char
  | [] => []
  | c :: rest => valident.visit c :: valident.loop rest

/-- Valid identifier from a `CXXMethodDecl` name: a copy of `mname` whose
characters have been rewritten in place by the loop. -/
def valident (mname : String) : String :=
  String.mk (valident.loop mname.data)

/-! ## `RamFuzz::run` (lines 86-125) -/

/-- The modulus of `unsigned` arithmetic. -/
def UINT_MOD : Nat := 2 ^ 32

/-- The local state of one call of `run`, together with the output stream. -/
structure RunState where
  /-- The text written to `out` so far. -/
  out : String
  /-- The local `namecount`, read through `operator[]`. -/
  namecount : String → Nat
  /-- The local `mcount`. -/
  mcount : Nat
  /-- The local `ctrs`. -/
  ctrs : Bool

/-- The local constant `cls`. -/
def cls (C : CXXRecordDecl) : String := C.qualifiedNameAsString

/-- The local constant `rfcls`. -/
def rfcls (C : CXXRecordDecl) : String := "RF__" ++ C.nameAsString

/-- Lines 88-102: the locals are initialised and the head of the wrapper class
is written. -/
def runEnter (C : CXXRecordDecl) (out : String) : RunState :=
  let out := out ++ "namespace ramfuzz \x7b\n"
  let out := out ++ "class " ++ rfcls C ++ " \x7b\n"
  let out := out ++ " private:\n"
  let out := out ++ "  // Owns internally created objects. Must precede obj declaration.\n"
  let out := out ++ "  std::unique_ptr<" ++ cls C ++ "> pobj;\n"
  let out := out ++ " public:\n"
  let out := out ++ "  " ++ cls C ++ "& obj; // Object under test.\n"
  let out := out ++ "  " ++ rfcls C ++ "(" ++ cls C ++ "& obj) \n"
  let out := out ++ "    : obj(obj) \x7b\x7d // Object already created by caller.\n"
  { out := out, namecount := fun _ => 0, mcount := 0, ctrs := false }

/-- Lines 104-114: the body of the loop over `C->methods()`, for one member. -/
def runMember (C : CXXRecordDecl) (st : RunState) (M : CXXMethodDecl) : RunState :=
  if skip M then st
  else
    let name := valident M.nameAsString
    let st :=
      if M.kind == MethodKind.CXXConstructor then
        { st with out := st.out ++ "  " ++ cls C ++ "* ", ctrs := true }
      else
        { st with out := st.out ++ "  void ", mcount := (st.mcount + 1) % UINT_MOD }
    let idx := st.namecount name
    { st with
      out := st.out ++ name ++ toString idx ++ "();\n"
      namecount := fun k => if k = name then (idx + 1) % UINT_MOD else st.namecount k }

/-- Lines 103-115: the loop over the members still to visit. -/
def runLoop (C : CXXRecordDecl) : List CXXMethodDecl → RunState → RunState
  | [], st => st
  | M :: rest, st => runLoop C rest (runMember C st M)

/-- Lines 116-119: the selector-accepting constructor, written when `ctrs`. -/
def runSelector (C : CXXRecordDecl) (st : RunState) : RunState :=
  if st.ctrs then
    let out := st.out ++ "  // Creates obj internally, using indicated constructor.\n"
    let out := out ++ "  " ++ rfcls C ++ "(unsigned ctr);\n"
    { st with out := out }
  else st

/-- Lines 120-123: the dispatch table and the end of the block. -/
def runExit (C : CXXRecordDecl) (st : RunState) : String :=
  let out := st.out ++ "  using mptr = void (" ++ rfcls C ++ "::*)();\n"
  let out := out ++ "  static mptr roulette[" ++ toString st.mcount ++ "];\n"
  let out := out ++ "\x7d;\n"
  let out := out ++ "\x7d // namespace ramfuzz\n"
  out

/-- The match callback `RamFuzz::run`: the text of `out` after the call, given
the text before it.  Nothing is written when no class node is bound. -/
def run (Result : MatchResult) (out : String) : String :=
  match Result.getNodeAsClass with
  | some C => runExit C (runSelector C (runLoop C C.methods (runEnter C out)))
  | none => out

/-- The match result the finder hands to `run` for a class selected by
`ClassMatcher`, which binds the class node to the name `class`. -/
def matched (C : CXXRecordDecl) : MatchResult :=
  { getNodeAsClass := some C }


/-! ## Specification-side vocabulary -/

/-- Spec-side (§4.1): the fixed character substitution with pass-through,
written out key by key. -/
def substitution (c : Char) : Char :=
  if c = ' ' then '_' else if c = '=' then 'e' else if c = '+' then 'p'
  else if c = '-' then 'm' else if c = '*' then 's' else if c = '/' then 'd'
  else if c = '%' then 'c' else if c = '&' then 'a' else if c = '|' then 'f'
  else if c = '^' then 'r' else if c = '<' then 'l' else if c = '>' then 'g'
  else if c = '~' then 't' else if c = '!' then 'b' else if c = '[' then 'h'
  else if c = ']' then 'i' else if c = '(' then 'j' else if c = ')' then 'k'
  else if c = '.' then 'n' else c

/-- Spec-side (§3, MemberCandidate): a member is eligible iff it is not a
destructor, has public access, and is an instance (non-static) member. -/
def eligible (M : CXXMethodDecl) : Bool :=
  M.kind != MethodKind.CXXDestructor && M.access == AccessSpecifier.AS_public &&
    M.isInstance

/-- Spec-side: the member is a constructor. -/
def isConstructor (M : CXXMethodDecl) : Bool :=
  M.kind == MethodKind.CXXConstructor

/-- Spec-side: the number of eligible members of `Ms` whose mangled base is `b`. -/
def baseCount (Ms : List CXXMethodDecl) (b : String) : Nat :=
  Ms.countP (fun M => eligible M && valident M.nameAsString == b)

/-- Spec-side (§3, GeneratedIdentifier): the occurrence index of `M`, given the
members declared before it: how many of them are eligible and share its
mangled base. -/
def occurrenceIndex (before : List CXXMethodDecl) (M : CXXMethodDecl) : Nat :=
  baseCount before (valident M.nameAsString)

/-- Spec-side (§4.4): the stub declaration line of an eligible member with a
given occurrence index: pointer-returning for a constructor, `void` otherwise. -/
def stubDecl (C : CXXRecordDecl) (M : CXXMethodDecl) (idx : Nat) : String :=
  (if isConstructor M then "  " ++ cls C ++ "* " else "  void ") ++
    valident M.nameAsString ++ toString idx ++ "();\n"

/-- Spec-side: the stub lines of the members `rest`, which follow the members
`before` in the class: one line per eligible member, in declaration order. -/
def stubsFrom (C : CXXRecordDecl) : List CXXMethodDecl → List CXXMethodDecl → List String
  | _, [] => []
  | before, M :: rest =>
    if eligible M then
      stubDecl C M (occurrenceIndex before M) :: stubsFrom C (before ++ [M]) rest
    else stubsFrom C (before ++ [M]) rest

/-- Spec-side (§4.3, §4.4): the stub lines of a class: one per eligible direct
member, in declaration order, the member at position `i` carrying the
occurrence index computed from the `i` members declared before it. -/
def stubDecls (C : CXXRecordDecl) : List String :=
  (C.methods.enum.filter (fun p => eligible p.2)).map
    (fun p => stubDecl C p.2 (occurrenceIndex (C.methods.take p.1) p.2))

/-- Spec-side: the declaration of the selector-accepting wrapper constructor,
with the comment line written above it. -/
def selectorDecl (C : CXXRecordDecl) : String :=
  "  // Creates obj internally, using indicated constructor.\n" ++
    "  " ++ rfcls C ++ "(unsigned ctr);\n"

/-- Spec-side: a character allowed in an identifier: an ASCII letter, a digit
or an underscore. -/
def identChar (c : Char) : Bool :=
  c.isAlpha || c.isDigit || c == '_'

/-! ## Example classes -/

/-- A public instance method named `n`. -/
def publicMethod (n : String) : CXXMethodDecl :=
  { nameAsString := n, kind := MethodKind.CXXMethod,
    access := AccessSpecifier.AS_public, isInstance := true }

/-- Scenario A: `Widget` with a public constructor, the public methods `spin`
and `operator+`, the private method `hidden` and its destructor. -/
def Widget : CXXRecordDecl :=
  { qualifiedNameAsString := "Widget", nameAsString := "Widget",
    methods :=
      [{ nameAsString := "Widget", kind := MethodKind.CXXConstructor,
         access := AccessSpecifier.AS_public, isInstance := true },
       publicMethod "spin",
       publicMethod "operator+",
       { nameAsString := "hidden", kind := MethodKind.CXXMethod,
         access := AccessSpecifier.AS_private, isInstance := true },
       { nameAsString := "~Widget", kind := MethodKind.CXXDestructor,
         access := AccessSpecifier.AS_public, isInstance := true }] }

/-- Scenario C: a class with three public overloads named `step`. -/
def Stepper : CXXRecordDecl :=
  { qualifiedNameAsString := "Stepper", nameAsString := "Stepper",
    methods := [publicMethod "step", publicMethod "step", publicMethod "step"] }

/-- A class with eleven public overloads named `f` followed by a public method
named `f1`. -/
def Clash : CXXRecordDecl :=
  { qualifiedNameAsString := "Clash", nameAsString := "Clash",
    methods := List.replicate 11 (publicMethod "f") ++ [publicMethod "f1"] }

/-- A class in a namespace whose members are a private constructor, a
protected method, a public static method and the destructor. -/
def Sealed : CXXRecordDecl :=
  { qualifiedNameAsString := "ns::Sealed", nameAsString := "Sealed",
    methods :=
      [{ nameAsString := "Sealed", kind := MethodKind.CXXConstructor,
         access := AccessSpecifier.AS_private, isInstance := true },
       { nameAsString := "tick", kind := MethodKind.CXXMethod,
         access := AccessSpecifier.AS_protected, isInstance := true },
       { nameAsString := "make", kind := MethodKind.CXXMethod,
         access := AccessSpecifier.AS_public, isInstance := false },
       { nameAsString := "~Sealed", kind := MethodKind.CXXDestructor,
         access := AccessSpecifier.AS_public, isInstance := true }] }

/-! ## The class matcher and the match finder (lines 33-37) -/

/-- A declaration node of the AST together with the declarations nested in
it, as far as `ClassMatcher` inspects it.  A class node carries the result of
`isExpansionInMainFile()`; a method node carries the member record; every
other kind of node is an `otherDecl`. -/
inductive Decl where
  | namespaceDecl (isAnonymous : Bool) (decls : List Decl)
  | cxxRecordDecl (qualifiedNameAsString nameAsString : String)
      (isExpansionInMainFile : Bool) (decls : List Decl)
  | cxxMethodDecl (M : CXXMethodDecl) (decls : List Decl)
  | otherDecl (decls : List Decl)

mutual
/-- The proper descendants of a node, in traversal order: what
`hasDescendant` ranges over. -/
def Decl.descendants : Decl → List Decl
  | Decl.namespaceDecl _ ds => Decl.descendantsOfList ds
  | Decl.cxxRecordDecl _ _ _ ds => Decl.descendantsOfList ds
  | Decl.cxxMethodDecl _ ds => Decl.descendantsOfList ds
  | Decl.otherDecl ds => Decl.descendantsOfList ds
/-- The nodes of a list of sibling declarations and all their descendants. -/
def Decl.descendantsOfList : List Decl → List Decl
  | [] => []
  | d :: ds => d :: (Decl.descendants d ++ Decl.descendantsOfList ds)
end

/-- The range `methods()` of a class: the member function nodes among its
direct declarations, in declaration order. -/
def Decl.methodsOf : List Decl → List CXXMethodDecl
  | [] => []
  | Decl.cxxMethodDecl M _ :: ds => M :: Decl.methodsOf ds
  | _ :: ds => Decl.methodsOf ds

/-- The class record `run` reads from a node (`getNodeAs<CXXRecordDecl>`): none
when the node is not a class. -/
def Decl.getAsCXXRecordDecl : Decl → Option CXXRecordDecl
  | Decl.cxxRecordDecl q n _ ds =>
    some { qualifiedNameAsString := q, nameAsString := n, methods := Decl.methodsOf ds }
  | _ => none

/-- The inner matcher `namespaceDecl(isAnonymous())`. -/
def namespaceDeclIsAnonymous : Decl → Bool
  | Decl.namespaceDecl a _ => a
  | _ => false

/-- The inner matcher `cxxMethodDecl(isPublic())`. -/
def cxxMethodDeclIsPublic : Decl → Bool
  | Decl.cxxMethodDecl M _ => M.access == AccessSpecifier.AS_public
  | _ => false

/-- The matcher `ClassMatcher` at a node with the given ancestors (nearest
first): a class node with `isExpansionInMainFile()`, unless some ancestor is an
anonymous namespace, having a public member function among its descendants. -/
def ClassMatcher (ancestors : List Decl) : Decl → Bool
  | Decl.cxxRecordDecl _ _ inMainFile ds =>
    inMainFile && !(ancestors.any namespaceDeclIsAnonymous) &&
      (Decl.descendantsOfList ds).any cxxMethodDeclIsPublic
  | _ => false

/-- The match finder at one node: when `ClassMatcher` matches, the callback
receives a result that binds the node to `class`. -/
def MatchFinder.visit (ancestors : List Decl) (D : Decl) : List MatchResult :=
  if ClassMatcher ancestors D then [{ getNodeAsClass := Decl.getAsCXXRecordDecl D }] else []

mutual
/-- The match finder over a node and the declarations nested in it: the
results handed to the callback, in traversal order. -/
def MatchFinder.matchDecl (ancestors : List Decl) : Decl → List MatchResult
  | Decl.namespaceDecl a ds =>
    MatchFinder.visit ancestors (Decl.namespaceDecl a ds) ++
      MatchFinder.matchDecls (Decl.namespaceDecl a ds :: ancestors) ds
  | Decl.cxxRecordDecl q n m ds =>
    MatchFinder.visit ancestors (Decl.cxxRecordDecl q n m ds) ++
      MatchFinder.matchDecls (Decl.cxxRecordDecl q n m ds :: ancestors) ds
  | Decl.cxxMethodDecl M ds =>
    MatchFinder.visit ancestors (Decl.cxxMethodDecl M ds) ++
      MatchFinder.matchDecls (Decl.cxxMethodDecl M ds :: ancestors) ds
  | Decl.otherDecl ds =>
    MatchFinder.visit ancestors (Decl.otherDecl ds) ++
      MatchFinder.matchDecls (Decl.otherDecl ds :: ancestors) ds
/-- The match finder over a list of sibling declarations. -/
def MatchFinder.matchDecls (ancestors : List Decl) : List Decl → List MatchResult
  | [] => []
  | d :: ds => MatchFinder.matchDecl ancestors d ++ MatchFinder.matchDecls ancestors ds
end

/-- The callback `run` applied to a sequence of match results in turn, all
writing to the same stream. -/
def runAll (Rs : List MatchResult) (out : String) : String :=
  Rs.foldl (fun o R => run R o) out

/-! ## The entry points (lines 127-139) -/

/-- What `clang::tooling::runToolOnCode` does with a code text: whether the
tool succeeded, and the top-level declarations of the AST over which the match
finder ran. -/
structure ToolOnCode where
  /-- The value returned by `runToolOnCode`. -/
  success : Bool
  /-- The top-level declarations of the translation unit. -/
  ast : List Decl

/-- The single-unit entry point `ramfuzz(const string &code)`, the front end
being a parameter. -/
def ramfuzz (runToolOnCode : String → ToolOnCode) (code : String) : String :=
  let str := runAll (MatchFinder.matchDecls [] (runToolOnCode code).ast) ""
  if (runToolOnCode code).success then str else "fail"

/-- A `ClangTool` as far as `run` shows: the translation units it processes, in
order, and the status it returns. -/
structure ClangTool where
  /-- The top-level declarations of each translation unit. -/
  units : List (List Decl)
  /-- The value returned by `tool.run`. -/
  status : Int

/-- The multi-unit entry point `ramfuzz(ClangTool &, const vector<string> &,
ostream &)`: the returned status and the text of `out` after the call. -/
def ramfuzzTool (tool : ClangTool) (sources : List String) (out : String) : Int × String :=
  let out := out ++ "#include <memory>\n"
  let out := sources.foldl (fun o f => o ++ "#include \"" ++ f ++ "\"\n") out
  (tool.status, tool.units.foldl (fun o tu => runAll (MatchFinder.matchDecls [] tu) o) out)

/-! ## Specification-side vocabulary, continued -/

/-- Spec-side (§6): the head of the wrapper: the two ownership facilities and
the reference-accepting constructor. -/
def wrapperHead (C : CXXRecordDecl) : String :=
  "namespace ramfuzz \x7b\n" ++ "class " ++ rfcls C ++ " \x7b\n" ++ " private:\n" ++
    "  // Owns internally created objects. Must precede obj declaration.\n" ++
    "  std::unique_ptr<" ++ cls C ++ "> pobj;\n" ++ " public:\n" ++
    "  " ++ cls C ++ "& obj; // Object under test.\n" ++
    "  " ++ rfcls C ++ "(" ++ cls C ++ "& obj) \n" ++
    "    : obj(obj) \x7b\x7d // Object already created by caller.\n"

/-- Spec-side (§6): the dispatch table of size `n` and the end of the block. -/
def wrapperTail (C : CXXRecordDecl) (n : Nat) : String :=
  "  using mptr = void (" ++ rfcls C ++ "::*)();\n" ++
    "  static mptr roulette[" ++ toString n ++ "];\n" ++ "\x7d;\n" ++
    "\x7d // namespace ramfuzz\n"

/-- The stub lines written for the members `rest`, which follow the members
`before`: as `stubsFrom`, with the index reduced modulo `2 ^ 32` as the
`unsigned` counter is. -/
def writtenStubsFrom (C : CXXRecordDecl) :
    List CXXMethodDecl → List CXXMethodDecl → List String
  | _, [] => []
  | before, M :: rest =>
    if eligible M then
      stubDecl C M (occurrenceIndex before M % UINT_MOD) ::
        writtenStubsFrom C (before ++ [M]) rest
    else writtenStubsFrom C (before ++ [M]) rest

/-- The block written for one class, piece by piece: head, stub lines,
selector-accepting constructor when there is an eligible constructor, dispatch
table. -/
def wrapperText (C : CXXRecordDecl) : String :=
  wrapperHead C ++ String.join (writtenStubsFrom C [] C.methods) ++
    (if C.methods.any (fun M => eligible M && isConstructor M) then selectorDecl C else "") ++
    wrapperTail C
      ((C.methods.filter (fun M => eligible M && !isConstructor M)).length % UINT_MOD)

/-- Spec-side: the number of wrapper constructors declared in a generated
text: the lines that start, after the indentation, with the wrapper name
followed by an opening parenthesis. -/
def wrapperConstructorCount (C : CXXRecordDecl) (text : String) : Nat :=
  ((text.data.splitOn '\n').filter
    (fun l => List.isPrefixOf ("  " ++ rfcls C ++ "(").data l)).length

/-- Spec-side (§4.4 a): the declaration of the owning slot. -/
def pobjDecl (C : CXXRecordDecl) : String :=
  "  std::unique_ptr<" ++ cls C ++ "> pobj;\n"

/-- Spec-side (§4.4 b): the declaration of the reference to the object under
test. -/
def objDecl (C : CXXRecordDecl) : String :=
  "  " ++ cls C ++ "& obj; // Object under test.\n"

/-- Spec-side (§4.4): the reference-accepting wrapper constructor; its
initialiser list names `obj` only and its body is empty. -/
def refConstructorDecl (C : CXXRecordDecl) : String :=
  "  " ++ rfcls C ++ "(" ++ cls C ++ "& obj) \n" ++
    "    : obj(obj) \x7b\x7d // Object already created by caller.\n"

/-- Spec-side: what is written after the stub lines, piece by piece: the
selector-accepting constructor with its comment when there is an eligible
constructor, then the dispatch table and the end of the block. -/
def afterStubLines (C : CXXRecordDecl) : List String :=
  (if C.methods.any (fun M => eligible M && isConstructor M) then
      ["  // Creates obj internally, using indicated constructor.\n",
       "  " ++ rfcls C ++ "(unsigned ctr);\n"]
    else []) ++
  ["  using mptr = void (" ++ rfcls C ++ "::*)();\n",
   "  static mptr roulette[" ++
     toString ((C.methods.filter (fun M => eligible M && !isConstructor M)).length % UINT_MOD) ++
     "];\n",
   "\x7d;\n", "\x7d // namespace ramfuzz\n"]

/-- Spec-side: the block written for one class as the sequence of its pieces,
in the order written: eight pieces of the head, the stub lines, and what
follows them. -/
def blockLines (C : CXXRecordDecl) : List String :=
  ["namespace ramfuzz \x7b\n", "class " ++ rfcls C ++ " \x7b\n", " private:\n",
   "  // Owns internally created objects. Must precede obj declaration.\n",
   pobjDecl C, " public:\n", objDecl C, refConstructorDecl C] ++
  (writtenStubsFrom C [] C.methods ++ afterStubLines C)

/-- The last `n` characters of a text, the last one first. -/
def lastChars (n : Nat) (s : String) : List Char :=
  s.data.reverse.take n

/-! ## Example declaration trees -/

/-- Scenario B: a class defined in the main file whose members are a private
constructor and two protected methods. -/
def Locked : Decl :=
  Decl.cxxRecordDecl "Locked" "Locked" true
    [Decl.cxxMethodDecl
       { nameAsString := "Locked", kind := MethodKind.CXXConstructor,
         access := AccessSpecifier.AS_private, isInstance := true } [],
     Decl.cxxMethodDecl
       { nameAsString := "tick", kind := MethodKind.CXXMethod,
         access := AccessSpecifier.AS_protected, isInstance := true } [],
     Decl.cxxMethodDecl
       { nameAsString := "tock", kind := MethodKind.CXXMethod,
         access := AccessSpecifier.AS_protected, isInstance := true } []]

/-- A class without member functions of its own, with a nested class `Inner`
that has the public method `poke`. -/
def Outer : Decl :=
  Decl.cxxRecordDecl "Outer" "Outer" true
    [Decl.otherDecl [],
     Decl.cxxRecordDecl "Outer::Inner" "Inner" true
       [Decl.cxxMethodDecl (publicMethod "poke") []]]

/-- A class whose only member function is the public static `make`. -/
def Factory : Decl :=
  Decl.cxxRecordDecl "Factory" "Factory" true
    [Decl.cxxMethodDecl
       { nameAsString := "make", kind := MethodKind.CXXMethod,
         access := AccessSpecifier.AS_public, isInstance := false } []]

/-! ## Lemmas on `valident` -/

theorem lookup_cons_ite (c k v : Char) (t : List (Char × Char)) :
    List.lookup c ((k, v) :: t) = if c = k then some v else List.lookup c t := by
  by_cases h : c = k
  · subst h; simp [List.lookup]
  · have hb : (c == k) = false := by simpa using h
    simp [List.lookup, hb, h]

theorem visit_eq_getD (c : Char) :
    valident.visit c = (valident.table.lookup c).getD c := by
  unfold valident.visit
  cases valident.table.lookup c <;> rfl

theorem getD_peel (c k v g : Char) (f : Option Char) (h : f.getD c = g) :
    (if c = k then some v else f).getD c = if c = k then v else g := by
  by_cases hk : c = k
  · rw [if_pos hk, if_pos hk]; rfl
  · rw [if_neg hk, if_neg hk]; exact h

theorem visit_eq_substitution (c : Char) : valident.visit c = substitution c := by
  rw [visit_eq_getD]
  unfold valident.table substitution
  iterate 19 rw [lookup_cons_ite]
  rw [List.lookup_nil]
  iterate 19 apply getD_peel
  rfl

theorem loop_eq_map (l : List Char) : valident.loop l = l.map substitution := by
  induction l with
  | nil => rfl
  | cons c rest ih => simp [valident.loop, ih, visit_eq_substitution]

theorem valident_data (s : String) : (valident s).data = s.data.map substitution := by
  simp [valident, loop_eq_map]

/-! ## Lemmas on text -/

theorem foldl_append_acc (l : List String) (acc : String) :
    List.foldl (fun r s => r ++ s) acc l = acc ++ List.foldl (fun r s => r ++ s) "" l := by
  induction l generalizing acc with
  | nil => simp
  | cons x xs ih =>
    simp only [List.foldl_cons]
    rw [ih (acc ++ x), ih ("" ++ x), String.empty_append, String.append_assoc]

theorem join_nil : String.join [] = "" := rfl

theorem join_cons (x : String) (xs : List String) :
    String.join (x :: xs) = x ++ String.join xs := by
  unfold String.join
  rw [List.foldl_cons, foldl_append_acc, String.empty_append]

/-! ## Lemmas on the member loop -/

theorem skip_eq_not_eligible (M : CXXMethodDecl) : skip M = !eligible M := by
  cases M with
  | mk n k a i => cases k <;> cases a <;> cases i <;> rfl

theorem runMember_of_not_eligible (C : CXXRecordDecl) (st : RunState) (M : CXXMethodDecl)
    (h : eligible M = false) : runMember C st M = st := by
  simp [runMember, skip_eq_not_eligible, h]

theorem runMember_out (C : CXXRecordDecl) (st : RunState) (M : CXXMethodDecl)
    (h : eligible M = true) :
    (runMember C st M).out = st.out ++ stubDecl C M (st.namecount (valident M.nameAsString)) := by
  by_cases hc : M.kind = MethodKind.CXXConstructor
  · simp [runMember, skip_eq_not_eligible, h, stubDecl, isConstructor, hc, String.append_assoc]
  · simp [runMember, skip_eq_not_eligible, h, stubDecl, isConstructor, hc, String.append_assoc]

theorem runMember_namecount (C : CXXRecordDecl) (st : RunState) (M : CXXMethodDecl)
    (h : eligible M = true) (k : String) :
    (runMember C st M).namecount k =
      if k = valident M.nameAsString then (st.namecount k + 1) % UINT_MOD
      else st.namecount k := by
  by_cases hc : M.kind = MethodKind.CXXConstructor <;>
    by_cases hk : k = valident M.nameAsString <;>
    simp [runMember, skip_eq_not_eligible, h, hc, hk]

theorem runMember_mcount (C : CXXRecordDecl) (st : RunState) (M : CXXMethodDecl)
    (h : eligible M = true) :
    (runMember C st M).mcount =
      if isConstructor M then st.mcount else (st.mcount + 1) % UINT_MOD := by
  by_cases hc : M.kind = MethodKind.CXXConstructor <;>
    simp [runMember, skip_eq_not_eligible, h, hc, isConstructor]

theorem runMember_ctrs (C : CXXRecordDecl) (st : RunState) (M : CXXMethodDecl)
    (h : eligible M = true) :
    (runMember C st M).ctrs = (st.ctrs || isConstructor M) := by
  by_cases hc : M.kind = MethodKind.CXXConstructor <;>
    simp [runMember, skip_eq_not_eligible, h, hc, isConstructor]

theorem runLoop_append (C : CXXRecordDecl) (a b : List CXXMethodDecl) (st : RunState) :
    runLoop C (a ++ b) st = runLoop C b (runLoop C a st) := by
  induction a generalizing st with
  | nil => rfl
  | cons M rest ih => simp [runLoop, ih]

theorem runLoop_filter (C : CXXRecordDecl) (Ms : List CXXMethodDecl) (st : RunState) :
    runLoop C (Ms.filter eligible) st = runLoop C Ms st := by
  induction Ms generalizing st with
  | nil => rfl
  | cons M rest ih =>
    cases h : eligible M
    · rw [List.filter_cons_of_neg (by simp [h])]
      simp [runLoop, runMember_of_not_eligible C st M h, ih]
    · rw [List.filter_cons_of_pos h]
      simp [runLoop, ih]


theorem baseCount_append_singleton (before : List CXXMethodDecl) (M : CXXMethodDecl)
    (b : String) :
    baseCount (before ++ [M]) b =
      baseCount before b + if (eligible M && valident M.nameAsString == b) = true then 1 else 0 := by
  simp [baseCount, List.countP_append, List.countP_cons]

theorem baseCount_le_eligible (Ms : List CXXMethodDecl) (b : String) :
    baseCount Ms b ≤ Ms.countP eligible := by
  unfold baseCount
  apply List.countP_mono_left
  intro M _ h
  simp only [Bool.and_eq_true] at h
  exact h.1

theorem runLoop_ctrs (C : CXXRecordDecl) (Ms : List CXXMethodDecl) (st : RunState) :
    (runLoop C Ms st).ctrs =
      (st.ctrs || Ms.any (fun M => eligible M && isConstructor M)) := by
  induction Ms generalizing st with
  | nil => simp [runLoop]
  | cons M rest ih =>
    cases h : eligible M
    · simp [runLoop, runMember_of_not_eligible C st M h, ih, h]
    · simp [runLoop, ih, runMember_ctrs C st M h, h, Bool.or_assoc]

theorem runLoop_mcount (C : CXXRecordDecl) (Ms : List CXXMethodDecl) (st : RunState)
    (n : Nat) (hn : st.mcount = n % UINT_MOD) :
    (runLoop C Ms st).mcount =
      (n + Ms.countP (fun M => eligible M && !isConstructor M)) % UINT_MOD := by
  induction Ms generalizing st n with
  | nil => simpa [runLoop] using hn
  | cons M rest ih =>
    cases h : eligible M
    · simp [runLoop, runMember_of_not_eligible C st M h, ih st n hn, h]
    · cases hc : isConstructor M
      · have h1 : (runMember C st M).mcount = (n + 1) % UINT_MOD := by
          rw [runMember_mcount C st M h, hc, hn]
          simp [UINT_MOD]
        simp only [runLoop]
        rw [ih _ (n + 1) h1]
        simp [List.countP_cons, h, hc]
        congr 1
        omega
      · have h1 : (runMember C st M).mcount = n % UINT_MOD := by
          rw [runMember_mcount C st M h, hc, hn]
          simp
        simp only [runLoop]
        rw [ih _ n h1]
        simp [List.countP_cons, h, hc]

theorem runLoop_namecount (C : CXXRecordDecl) (rest before : List CXXMethodDecl)
    (st : RunState) (hinv : ∀ b, st.namecount b = baseCount before b % UINT_MOD) (b : String) :
    (runLoop C rest st).namecount b = baseCount (before ++ rest) b % UINT_MOD := by
  induction rest generalizing st before with
  | nil => simpa [runLoop] using hinv b
  | cons M rest ih =>
    simp only [runLoop]
    have happ : before ++ M :: rest = (before ++ [M]) ++ rest := by simp
    rw [happ]
    apply ih
    intro k
    rw [baseCount_append_singleton]
    cases h : eligible M
    · rw [runMember_of_not_eligible C st M h]
      simpa using hinv k
    · rw [runMember_namecount C st M h k, hinv k]
      by_cases hk : k = valident M.nameAsString
      · subst hk
        simp [UINT_MOD]
      · have hk2 : ¬ (valident M.nameAsString = k) := fun e => hk e.symm
        simp [hk, hk2]


theorem countP_eligible_append_cons (before rest : List CXXMethodDecl) (M : CXXMethodDecl)
    (h : eligible M = true) :
    (before ++ M :: rest).countP eligible =
      before.countP eligible + 1 + rest.countP eligible := by
  simp [List.countP_append, List.countP_cons, h]
  omega

theorem runLoop_out (C : CXXRecordDecl) (rest before : List CXXMethodDecl) (st : RunState)
    (hinv : ∀ b, st.namecount b = baseCount before b % UINT_MOD)
    (hbound : (before ++ rest).countP eligible ≤ UINT_MOD) :
    (runLoop C rest st).out = st.out ++ String.join (stubsFrom C before rest) := by
  induction rest generalizing st before with
  | nil => simp [runLoop, stubsFrom, join_nil]
  | cons M rest ih =>
    have happ : before ++ M :: rest = (before ++ [M]) ++ rest := by simp
    simp only [runLoop, stubsFrom]
    cases h : eligible M
    · rw [runMember_of_not_eligible C st M h]
      simp only [Bool.false_eq_true, if_false]
      apply ih
      · intro k
        rw [baseCount_append_singleton]
        simpa [h] using hinv k
      · rw [← happ]; exact hbound
    · have hidx : st.namecount (valident M.nameAsString) = occurrenceIndex before M := by
        rw [hinv]
        apply Nat.mod_eq_of_lt
        have h1 := baseCount_le_eligible before (valident M.nameAsString)
        have h2 := countP_eligible_append_cons before rest M h
        omega
      have hnext : ∀ b, (runMember C st M).namecount b =
          baseCount (before ++ [M]) b % UINT_MOD := by
        intro k
        rw [baseCount_append_singleton, runMember_namecount C st M h k, hinv k]
        by_cases hk : k = valident M.nameAsString
        · subst hk
          simp [UINT_MOD, h]
        · have hk2 : ¬ (valident M.nameAsString = k) := fun e => hk e.symm
          simp [hk, hk2]
      rw [ih (before ++ [M]) (runMember C st M) hnext (by rw [← happ]; exact hbound)]
      rw [runMember_out C st M h, hidx]
      simp only [if_true, join_cons, String.append_assoc]

theorem runEnter_namecount (C : CXXRecordDecl) (out : String) (b : String) :
    (runEnter C out).namecount b = baseCount [] b % UINT_MOD := by
  simp [runEnter, baseCount]

theorem countP_eligible_eq (Ms : List CXXMethodDecl) :
    Ms.countP eligible = (Ms.filter eligible).length := by
  simp [List.countP_eq_length_filter]


theorem getElem?_split (l : List CXXMethodDecl) (i : Nat) (M : CXXMethodDecl)
    (h : l[i]? = some M) : l = l.take i ++ M :: l.drop (i + 1) := by
  induction l generalizing i with
  | nil => simp at h
  | cons x xs ih =>
    cases i with
    | zero => simp at h; simp [h]
    | succ j =>
      simp at h
      simpa using ih j h

theorem stubsFrom_eq_enum (C : CXXRecordDecl) (rest before : List CXXMethodDecl) :
    stubsFrom C before rest =
      ((rest.enumFrom before.length).filter (fun p => eligible p.2)).map
        (fun p => stubDecl C p.2 (occurrenceIndex ((before ++ rest).take p.1) p.2)) := by
  induction rest generalizing before with
  | nil => simp [stubsFrom]
  | cons M rest ih =>
    have happ : before ++ M :: rest = (before ++ [M]) ++ rest := by simp
    have hlen : (before ++ [M]).length = before.length + 1 := by simp
    simp only [stubsFrom, List.enumFrom_cons]
    rw [ih (before ++ [M]), hlen, ← happ]
    cases h : eligible M
    · simp [List.filter_cons, h]
    · simp [List.filter_cons, h]

theorem stubsFrom_nil_eq_stubDecls (C : CXXRecordDecl) :
    stubsFrom C [] C.methods = stubDecls C := by
  rw [stubsFrom_eq_enum]
  simp [stubDecls, List.enum]

theorem runLoop_out_stubDecls (C : CXXRecordDecl) (out : String)
    (hbound : (C.methods.filter eligible).length < 2 ^ 32) :
    (runLoop C C.methods (runEnter C out)).out =
      (runEnter C out).out ++ String.join (stubDecls C) := by
  have h := runLoop_out C C.methods [] (runEnter C out) (runEnter_namecount C out)
    (by rw [List.nil_append, countP_eligible_eq]; exact Nat.le_of_lt hbound)
  rw [h, stubsFrom_nil_eq_stubDecls]

theorem runSelector_mcount (C : CXXRecordDecl) (st : RunState) :
    (runSelector C st).mcount = st.mcount := by
  unfold runSelector
  split <;> rfl

theorem runSelector_out (C : CXXRecordDecl) (st : RunState) :
    (runSelector C st).out = st.out ++ (if st.ctrs then selectorDecl C else "") := by
  unfold runSelector
  split
  · simp [selectorDecl, String.append_assoc]
  · simp

theorem runMember_congr (C D : CXXRecordDecl) (h : cls C = cls D) (st : RunState)
    (M : CXXMethodDecl) : runMember C st M = runMember D st M := by
  unfold runMember
  rw [h]

theorem runLoop_congr (C D : CXXRecordDecl) (h : cls C = cls D) (Ms : List CXXMethodDecl)
    (st : RunState) : runLoop C Ms st = runLoop D Ms st := by
  induction Ms generalizing st with
  | nil => rfl
  | cons M rest ih => simp [runLoop, runMember_congr C D h, ih]

theorem runLoop_none_eligible (C : CXXRecordDecl) (Ms : List CXXMethodDecl) (st : RunState)
    (h : ∀ M ∈ Ms, eligible M = false) : runLoop C Ms st = st := by
  induction Ms generalizing st with
  | nil => rfl
  | cons M rest ih =>
    simp only [runLoop]
    rw [runMember_of_not_eligible C st M (h M (List.mem_cons_self _ _))]
    exact ih st (fun M' hM' => h M' (List.mem_cons_of_mem _ hM'))

/-! ## The claims -/

/-- C1 (the code breaks it). For the class `Clash`, whose public methods are
eleven overloads `f` followed by `f1`, `run` gives the eleventh `f` the index
10 and `f1` the index 0, so the two generated names are the same string `f10`
and the stub line `void f10();` is written twice. -/
theorem clash_emits_duplicate_stub_name :
    (runLoop Clash (Clash.methods.take 10) (runEnter Clash "")).namecount (valident "f") = 10 ∧
      (runLoop Clash (Clash.methods.take 11) (runEnter Clash "")).namecount (valident "f1") = 0 ∧
      valident "f" ++ toString 10 = valident "f1" ++ toString 0 ∧
      run (matched Clash) "" =
        "namespace ramfuzz \x7b\nclass RF__Clash \x7b\n private:\n" ++
        "  // Owns internally created objects. Must precede obj declaration.\n" ++
        "  std::unique_ptr<Clash> pobj;\n public:\n" ++
        "  Clash& obj; // Object under test.\n  RF__Clash(Clash& obj) \n" ++
        "    : obj(obj) \x7b\x7d // Object already created by caller.\n" ++
        "  void f0();\n  void f1();\n  void f2();\n  void f3();\n  void f4();\n" ++
        "  void f5();\n  void f6();\n  void f7();\n  void f8();\n  void f9();\n" ++
        "  void f10();\n" ++
        "  void f10();\n" ++
        "  using mptr = void (RF__Clash::*)();\n  static mptr roulette[12];\n" ++
        "\x7d;\n\x7d // namespace ramfuzz\n" := by
  refine ⟨?_, ?_, ?_, ?_⟩ <;> decide

/-- C2. Under `run`, when the loop reaches an eligible member `M` at position
`i` of a class with fewer than `2 ^ 32` eligible members, the counter read for
the mangled base of `M` equals the number of eligible members declared before
`M` with the same mangled base, and the iteration appends exactly the return
type, the base, that number in decimal and `();`.  Three public methods named
`step` yield `step0`, `step1`, `step2`. -/
theorem occurrence_index_counts_earlier_same_base (C : CXXRecordDecl) (out : String)
    (hbound : (C.methods.filter eligible).length < 2 ^ 32)
    (i : Nat) (M : CXXMethodDecl) (hM : C.methods[i]? = some M)
    (hel : eligible M = true) :
    (runLoop C (C.methods.take i) (runEnter C out)).namecount (valident M.nameAsString) =
        occurrenceIndex (C.methods.take i) M ∧
      (runMember C (runLoop C (C.methods.take i) (runEnter C out)) M).out =
        (runLoop C (C.methods.take i) (runEnter C out)).out ++
          ((if isConstructor M then "  " ++ cls C ++ "* " else "  void ") ++
            valident M.nameAsString ++
            toString (occurrenceIndex (C.methods.take i) M) ++ "();\n") ∧
      (runLoop Stepper Stepper.methods (runEnter Stepper "")).out =
        (runEnter Stepper "").out ++
          "  void step0();\n  void step1();\n  void step2();\n" := by
  have hsplit := getElem?_split C.methods i M hM
  have hcount : (C.methods.take i).countP eligible < 2 ^ 32 := by
    have h1 : C.methods.countP eligible =
        (C.methods.take i).countP eligible + 1 + (C.methods.drop (i + 1)).countP eligible := by
      conv_lhs => rw [hsplit]
      exact countP_eligible_append_cons _ _ M hel
    rw [countP_eligible_eq C.methods] at h1
    omega
  have hidx : (runLoop C (C.methods.take i) (runEnter C out)).namecount
      (valident M.nameAsString) = occurrenceIndex (C.methods.take i) M := by
    have h := runLoop_namecount C (C.methods.take i) [] (runEnter C out)
      (runEnter_namecount C out) (valident M.nameAsString)
    rw [List.nil_append] at h
    rw [h]
    apply Nat.mod_eq_of_lt
    have h2 := baseCount_le_eligible (C.methods.take i) (valident M.nameAsString)
    have h3 : UINT_MOD = 2 ^ 32 := rfl
    omega
  refine ⟨hidx, ?_, ?_⟩
  · rw [runMember_out C _ M hel, hidx]
    rfl
  · decide

/-- Witness of C2: the third `step` of `Stepper`. -/
theorem occurrence_index_counts_earlier_same_base_witness :
    (Stepper.methods.filter eligible).length < 2 ^ 32 ∧
      Stepper.methods[2]? = some (publicMethod "step") ∧
      eligible (publicMethod "step") = true ∧
      ((runLoop Stepper (Stepper.methods.take 2) (runEnter Stepper "")).namecount
          (valident (publicMethod "step").nameAsString) =
          occurrenceIndex (Stepper.methods.take 2) (publicMethod "step") ∧
        (runMember Stepper (runLoop Stepper (Stepper.methods.take 2) (runEnter Stepper ""))
            (publicMethod "step")).out =
          (runLoop Stepper (Stepper.methods.take 2) (runEnter Stepper "")).out ++
            ((if isConstructor (publicMethod "step") then "  " ++ cls Stepper ++ "* "
              else "  void ") ++
              valident (publicMethod "step").nameAsString ++
              toString (occurrenceIndex (Stepper.methods.take 2) (publicMethod "step")) ++
              "();\n") ∧
        (runLoop Stepper Stepper.methods (runEnter Stepper "")).out =
          (runEnter Stepper "").out ++
            "  void step0();\n  void step1();\n  void step2();\n") :=
  ⟨by decide, by decide, by decide,
    occurrence_index_counts_earlier_same_base Stepper "" (by decide) 2 (publicMethod "step")
      (by decide) (by decide)⟩

/-- C3. For a class with fewer than `2 ^ 32` eligible ordinary methods, the
counter `mcount` after the loop, which `run` writes as the size in
`static mptr roulette[N];`, equals the number of direct members that are
eligible and are not constructors. -/
theorem roulette_size_counts_eligible_methods (C : CXXRecordDecl) (out : String)
    (hbound : (C.methods.filter (fun M => eligible M && !isConstructor M)).length < 2 ^ 32) :
    (runLoop C C.methods (runEnter C out)).mcount =
        (C.methods.filter (fun M => eligible M && !isConstructor M)).length ∧
      run (matched C) out =
        (runSelector C (runLoop C C.methods (runEnter C out))).out ++
          "  using mptr = void (" ++ rfcls C ++ "::*)();\n" ++
          "  static mptr roulette[" ++
          toString (C.methods.filter (fun M => eligible M && !isConstructor M)).length ++
          "];\n" ++ "\x7d;\n" ++ "\x7d // namespace ramfuzz\n" := by
  have hm : (runLoop C C.methods (runEnter C out)).mcount =
      (C.methods.filter (fun M => eligible M && !isConstructor M)).length := by
    rw [runLoop_mcount C C.methods (runEnter C out) 0 rfl, Nat.zero_add,
      List.countP_eq_length_filter]
    exact Nat.mod_eq_of_lt hbound
  refine ⟨hm, ?_⟩
  simp only [run, matched, runExit, runSelector_mcount, hm]

/-- Witness of C3: `Widget` has two eligible ordinary methods. -/
theorem roulette_size_counts_eligible_methods_witness :
    (Widget.methods.filter (fun M => eligible M && !isConstructor M)).length < 2 ^ 32 ∧
      ((runLoop Widget Widget.methods (runEnter Widget "")).mcount =
          (Widget.methods.filter (fun M => eligible M && !isConstructor M)).length ∧
        run (matched Widget) "" =
          (runSelector Widget (runLoop Widget Widget.methods (runEnter Widget ""))).out ++
            "  using mptr = void (" ++ rfcls Widget ++ "::*)();\n" ++
            "  static mptr roulette[" ++
            toString (Widget.methods.filter (fun M => eligible M && !isConstructor M)).length ++
            "];\n" ++ "\x7d;\n" ++ "\x7d // namespace ramfuzz\n") :=
  ⟨by decide, roulette_size_counts_eligible_methods Widget "" (by decide)⟩

/-- C4. The flag `ctrs` after the loop is true exactly when some direct member
is an eligible constructor; the selector-accepting constructor declaration is
written once, between the stubs and the dispatch table, in that case and is
not written otherwise. -/
theorem selector_constructor_iff_eligible_constructor (C : CXXRecordDecl) (out : String) :
    (runLoop C C.methods (runEnter C out)).ctrs =
        C.methods.any (fun M => eligible M && isConstructor M) ∧
      (runSelector C (runLoop C C.methods (runEnter C out))).out =
        (runLoop C C.methods (runEnter C out)).out ++
          (if C.methods.any (fun M => eligible M && isConstructor M) then
            "  // Creates obj internally, using indicated constructor.\n" ++
              "  " ++ rfcls C ++ "(unsigned ctr);\n"
           else "") ∧
      run (matched C) out =
        (runLoop C C.methods (runEnter C out)).out ++
          (if C.methods.any (fun M => eligible M && isConstructor M) then
            "  // Creates obj internally, using indicated constructor.\n" ++
              "  " ++ rfcls C ++ "(unsigned ctr);\n"
           else "") ++
          "  using mptr = void (" ++ rfcls C ++ "::*)();\n" ++
          "  static mptr roulette[" ++
          toString (runLoop C C.methods (runEnter C out)).mcount ++
          "];\n" ++ "\x7d;\n" ++ "\x7d // namespace ramfuzz\n" := by
  have hc : (runLoop C C.methods (runEnter C out)).ctrs =
      C.methods.any (fun M => eligible M && isConstructor M) := by
    rw [runLoop_ctrs]
    simp [runEnter]
  have hs := runSelector_out C (runLoop C C.methods (runEnter C out))
  rw [hc] at hs
  refine ⟨hc, ?_, ?_⟩
  · rw [hs]; rfl
  · simp only [run, matched, runExit, runSelector_mcount, hs]
    rfl

/-- C5. For a class with fewer than `2 ^ 32` eligible members, the text the
loop of `run` appends is exactly the sequence of stub lines, one per eligible
direct member and none for any other, in declaration order:
`<qualified name>* <base><index>();` for a constructor and
`void <base><index>();` otherwise, with `base = valident(raw name)` and the
index the number of earlier eligible members with the same base. -/
theorem stubs_one_per_eligible_member (C : CXXRecordDecl) (out : String)
    (hbound : (C.methods.filter eligible).length < 2 ^ 32) :
    (runLoop C C.methods (runEnter C out)).out =
        (runEnter C out).out ++
          String.join
            ((C.methods.enum.filter (fun p => eligible p.2)).map
              (fun p =>
                (if isConstructor p.2 then "  " ++ cls C ++ "* " else "  void ") ++
                  valident p.2.nameAsString ++
                  toString (occurrenceIndex (C.methods.take p.1) p.2) ++ "();\n")) ∧
      ((C.methods.enum.filter (fun p => eligible p.2)).map Prod.snd =
        C.methods.filter (fun M => !skip M)) := by
  refine ⟨runLoop_out_stubDecls C out hbound, ?_⟩
  have hsk : (fun M => !skip M) = eligible := by
    funext M; simp [skip_eq_not_eligible]
  rw [hsk]
  have key : ∀ (l : List CXXMethodDecl) (n : Nat),
      ((l.enumFrom n).filter (fun p => eligible p.2)).map Prod.snd = l.filter eligible := by
    intro l
    induction l with
    | nil => intro n; rfl
    | cons M rest ih =>
      intro n
      cases h : eligible M <;> simp [List.enumFrom_cons, List.filter_cons, h, ih]
  exact key C.methods 0

/-- Witness of C5: the three stubs of `Widget`. -/
theorem stubs_one_per_eligible_member_witness :
    (Widget.methods.filter eligible).length < 2 ^ 32 ∧
      ((runLoop Widget Widget.methods (runEnter Widget "")).out =
          (runEnter Widget "").out ++
            String.join
              ((Widget.methods.enum.filter (fun p => eligible p.2)).map
                (fun p =>
                  (if isConstructor p.2 then "  " ++ cls Widget ++ "* " else "  void ") ++
                    valident p.2.nameAsString ++
                    toString (occurrenceIndex (Widget.methods.take p.1) p.2) ++ "();\n")) ∧
        ((Widget.methods.enum.filter (fun p => eligible p.2)).map Prod.snd =
          Widget.methods.filter (fun M => !skip M))) :=
  ⟨by decide, stubs_one_per_eligible_member Widget "" (by decide)⟩

/-- C6. The text `run` emits for a class is the text it emits for the same
class with every ineligible member (destructor, non-public, static) removed
from the member list, whatever the names of the removed members. -/
theorem ineligible_members_leave_no_trace (C : CXXRecordDecl) (out : String) :
    run (matched C) out = run (matched { C with methods := C.methods.filter eligible }) out := by
  have hcls : cls C = cls { C with methods := C.methods.filter eligible } := rfl
  have hloop := runLoop_congr C { C with methods := C.methods.filter eligible } hcls
    (C.methods.filter eligible) (runEnter C out)
  have hf := runLoop_filter C C.methods (runEnter C out)
  show runExit C (runSelector C (runLoop C C.methods (runEnter C out))) =
    runExit C (runSelector C (runLoop { C with methods := C.methods.filter eligible }
      (C.methods.filter eligible) (runEnter C out)))
  rw [← hloop, hf]

/-- C7 (the code breaks it). The name `operator,` of an overloaded comma
operator is returned unchanged by `valident`: the comma is not a key of the
table, and it is neither a letter, a digit nor an underscore. -/
theorem valident_keeps_comma :
    valident "operator," = "operator," ∧
      ',' ∈ (valident "operator,").data ∧
      identChar ',' = false ∧
      ¬ (∀ c ∈ (valident "operator,").data, identChar c = true) := by
  refine ⟨?_, ?_, ?_, ?_⟩ <;> decide

/-- C8. For every string, `valident` keeps the length and, at every position,
replaces the character by its image in the table when it is one of the 19
keys and keeps it otherwise: it is the character-wise map of the fixed
substitution. -/
theorem valident_is_charwise_substitution (s : String) :
    (valident s).length = s.length ∧
      (∀ i : Nat,
        (valident s).data[i]? = (s.data[i]?).map (fun c => (valident.table.lookup c).getD c)) ∧
      valident.table.map Prod.fst = " =+-*/%&|^<>~![]().".data ∧
      valident s = String.map substitution s := by
  have hsub : (fun c => (valident.table.lookup c).getD c) = substitution := by
    funext c
    rw [← visit_eq_getD, visit_eq_substitution]
  refine ⟨?_, ?_, ?_, ?_⟩
  · show (valident s).data.length = s.data.length
    rw [valident_data, List.length_map]
  · intro i
    rw [hsub, valident_data, List.getElem?_map]
  · decide
  · rw [String.map_eq]
    exact String.ext (valident_data s)

/-- C9. For a class none of whose direct members is eligible (in particular a
class without members), the loop of `run` writes nothing, and the whole text
is the head of the wrapper followed directly by the dispatch table of size 0:
no stub and no selector-accepting constructor. -/
theorem no_eligible_member_empty_wrapper (C : CXXRecordDecl) (out : String)
    (hnone : ∀ M ∈ C.methods, eligible M = false) :
    (runLoop C C.methods (runEnter C out)).out = (runEnter C out).out ∧
      run (matched C) out =
        out ++ "namespace ramfuzz \x7b\n" ++ "class " ++ rfcls C ++ " \x7b\n" ++ " private:\n" ++
          "  // Owns internally created objects. Must precede obj declaration.\n" ++
          "  std::unique_ptr<" ++ cls C ++ "> pobj;\n" ++ " public:\n" ++
          "  " ++ cls C ++ "& obj; // Object under test.\n" ++
          "  " ++ rfcls C ++ "(" ++ cls C ++ "& obj) \n" ++
          "    : obj(obj) \x7b\x7d // Object already created by caller.\n" ++
          "  using mptr = void (" ++ rfcls C ++ "::*)();\n" ++
          "  static mptr roulette[0];\n" ++ "\x7d;\n" ++ "\x7d // namespace ramfuzz\n" := by
  have hl := runLoop_none_eligible C C.methods (runEnter C out) hnone
  refine ⟨by rw [hl], ?_⟩
  show runExit C (runSelector C (runLoop C C.methods (runEnter C out))) = _
  rw [hl]
  have h0 : toString (0 : Nat) = "0" := by decide
  simp [runSelector, runExit, runEnter, String.append_assoc, h0]

/-- Witness of C9: `Sealed` has four members, none eligible. -/
theorem no_eligible_member_empty_wrapper_witness :
    (∀ M ∈ Sealed.methods, eligible M = false) ∧
      ((runLoop Sealed Sealed.methods (runEnter Sealed "")).out = (runEnter Sealed "").out ∧
        run (matched Sealed) "" =
          "" ++ "namespace ramfuzz \x7b\n" ++ "class " ++ rfcls Sealed ++ " \x7b\n" ++ " private:\n" ++
            "  // Owns internally created objects. Must precede obj declaration.\n" ++
            "  std::unique_ptr<" ++ cls Sealed ++ "> pobj;\n" ++ " public:\n" ++
            "  " ++ cls Sealed ++ "& obj; // Object under test.\n" ++
            "  " ++ rfcls Sealed ++ "(" ++ cls Sealed ++ "& obj) \n" ++
            "    : obj(obj) \x7b\x7d // Object already created by caller.\n" ++
            "  using mptr = void (" ++ rfcls Sealed ++ "::*)();\n" ++
            "  static mptr roulette[0];\n" ++ "\x7d;\n" ++ "\x7d // namespace ramfuzz\n") :=
  ⟨by decide, no_eligible_member_empty_wrapper Sealed "" (by decide)⟩

/-- C10. Scenario A: for `Widget`, `run` writes exactly the three stubs
`Widget* Widget0();`, `void spin0();`, `void operatorp0();` in this order,
then the selector constructor `RF__Widget(unsigned ctr);`, and a dispatch
table of size 2; nothing is written for `hidden` or the destructor. -/
theorem scenario_A_widget :
    run (matched Widget) "" =
      "namespace ramfuzz \x7b\nclass RF__Widget \x7b\n private:\n" ++
      "  // Owns internally created objects. Must precede obj declaration.\n" ++
      "  std::unique_ptr<Widget> pobj;\n public:\n" ++
      "  Widget& obj; // Object under test.\n  RF__Widget(Widget& obj) \n" ++
      "    : obj(obj) \x7b\x7d // Object already created by caller.\n" ++
      "  Widget* Widget0();\n" ++
      "  void spin0();\n" ++
      "  void operatorp0();\n" ++
      "  // Creates obj internally, using indicated constructor.\n" ++
      "  RF__Widget(unsigned ctr);\n" ++
      "  using mptr = void (RF__Widget::*)();\n" ++
      "  static mptr roulette[2];\n" ++
      "\x7d;\n\x7d // namespace ramfuzz\n" := by
  decide


/-! ## Lemmas on the whole block -/

theorem runLoop_out_written (C : CXXRecordDecl) (rest before : List CXXMethodDecl)
    (st : RunState) (hinv : ∀ b, st.namecount b = baseCount before b % UINT_MOD) :
    (runLoop C rest st).out = st.out ++ String.join (writtenStubsFrom C before rest) := by
  induction rest generalizing st before with
  | nil => simp [runLoop, writtenStubsFrom, join_nil]
  | cons M rest ih =>
    simp only [runLoop, writtenStubsFrom]
    cases h : eligible M
    · rw [runMember_of_not_eligible C st M h]
      simp only [Bool.false_eq_true, if_false]
      apply ih
      intro k
      rw [baseCount_append_singleton]
      simpa [h] using hinv k
    · have hnext : ∀ b, (runMember C st M).namecount b =
          baseCount (before ++ [M]) b % UINT_MOD := by
        intro k
        rw [baseCount_append_singleton, runMember_namecount C st M h k, hinv k]
        by_cases hk : k = valident M.nameAsString
        · subst hk
          simp [UINT_MOD, h]
        · have hk2 : ¬ (valident M.nameAsString = k) := fun e => hk e.symm
          simp [hk, hk2]
      rw [ih (before ++ [M]) (runMember C st M) hnext, runMember_out C st M h, hinv]
      simp only [if_true, join_cons, String.append_assoc]
      rfl

theorem runEnter_out (C : CXXRecordDecl) (out : String) :
    (runEnter C out).out = out ++ wrapperHead C := by
  simp [runEnter, wrapperHead, String.append_assoc]

theorem run_matched_eq (C : CXXRecordDecl) (out : String) :
    run (matched C) out = out ++ wrapperText C := by
  show runExit C (runSelector C (runLoop C C.methods (runEnter C out))) = _
  have hm : (runLoop C C.methods (runEnter C out)).mcount =
      (C.methods.filter (fun M => eligible M && !isConstructor M)).length % UINT_MOD := by
    rw [runLoop_mcount C C.methods (runEnter C out) 0 rfl, Nat.zero_add,
      List.countP_eq_length_filter]
  have hc : (runLoop C C.methods (runEnter C out)).ctrs =
      C.methods.any (fun M => eligible M && isConstructor M) := by
    rw [runLoop_ctrs]
    simp [runEnter]
  have ho := runLoop_out_written C C.methods [] (runEnter C out) (runEnter_namecount C out)
  simp only [runExit, runSelector_mcount, runSelector_out, hm, hc, ho, runEnter_out,
    wrapperText, wrapperTail, String.append_assoc]

theorem run_none (out : String) : run { getNodeAsClass := none } out = out := rfl

theorem run_eq_append (R : MatchResult) (out : String) : run R out = out ++ run R "" := by
  cases R with
  | mk node =>
    cases node with
    | none => simp [run]
    | some C =>
      have h1 := run_matched_eq C out
      have h2 := run_matched_eq C ""
      simp only [matched] at h1 h2
      rw [h1, h2, String.empty_append]

theorem runAll_eq_join (Rs : List MatchResult) (out : String) :
    runAll Rs out = out ++ String.join (Rs.map (fun R => run R "")) := by
  induction Rs generalizing out with
  | nil => simp [runAll, join_nil]
  | cons R rest ih =>
    have h : runAll (R :: rest) out = runAll rest (run R out) := rfl
    rw [h, ih, run_eq_append R out, List.map_cons, join_cons, String.append_assoc]



/-! ## Lemmas on the substitution table -/

theorem substitution_eq_getD (c : Char) :
    substitution c = (valident.table.lookup c).getD c := by
  rw [← visit_eq_substitution, visit_eq_getD]

theorem lookup_mem_images (l : List (Char × Char)) (c d : Char)
    (h : List.lookup c l = some d) : d ∈ l.map Prod.snd := by
  induction l with
  | nil => simp at h
  | cons p rest ih =>
    obtain ⟨k, v⟩ := p
    rw [lookup_cons_ite] at h
    by_cases hk : c = k
    · rw [if_pos hk] at h
      simp only [Option.some.injEq] at h
      simp [h]
    · rw [if_neg hk] at h
      simp [ih h]

theorem images_not_keys :
    ∀ d ∈ valident.table.map Prod.snd, valident.table.lookup d = none := by
  decide

theorem substitution_idem (c : Char) : substitution (substitution c) = substitution c := by
  cases h : valident.table.lookup c with
  | none =>
    have hc : substitution c = c := by rw [substitution_eq_getD, h]; rfl
    rw [hc, hc]
  | some d =>
    have hc : substitution c = d := by rw [substitution_eq_getD, h]; rfl
    have hd := images_not_keys d (lookup_mem_images _ c d h)
    rw [hc, substitution_eq_getD, hd]
    rfl

/-! ## Lemmas on the occurrence index -/

theorem namecount_at_member (C : CXXRecordDecl) (out : String)
    (hbound : (C.methods.filter eligible).length < 2 ^ 32)
    (i : Nat) (M : CXXMethodDecl) (hM : C.methods[i]? = some M) (hel : eligible M = true) :
    (runLoop C (C.methods.take i) (runEnter C out)).namecount (valident M.nameAsString) =
      occurrenceIndex (C.methods.take i) M := by
  have hsplit := getElem?_split C.methods i M hM
  have h1 : C.methods.countP eligible =
      (C.methods.take i).countP eligible + 1 + (C.methods.drop (i + 1)).countP eligible := by
    conv_lhs => rw [hsplit]
    exact countP_eligible_append_cons _ _ M hel
  rw [countP_eligible_eq C.methods] at h1
  have h := runLoop_namecount C (C.methods.take i) [] (runEnter C out)
    (runEnter_namecount C out) (valident M.nameAsString)
  rw [List.nil_append] at h
  rw [h]
  apply Nat.mod_eq_of_lt
  have h2 := baseCount_le_eligible (C.methods.take i) (valident M.nameAsString)
  have h3 : UINT_MOD = 2 ^ 32 := rfl
  omega

theorem take_succ_of_getElem? (l : List CXXMethodDecl) (i : Nat) (M : CXXMethodDecl)
    (h : l[i]? = some M) : l.take (i + 1) = l.take i ++ [M] := by
  rw [List.take_succ, h]
  rfl

theorem baseCount_take_mono (l : List CXXMethodDecl) (b : String) (m n : Nat) (hmn : m ≤ n) :
    baseCount (l.take m) b ≤ baseCount (l.take n) b := by
  have h : l.take m = (l.take n).take m := by
    rw [List.take_take, Nat.min_eq_left hmn]
  unfold baseCount
  rw [h]
  exact List.Sublist.countP_le _ (List.take_sublist m (l.take n))

theorem occurrenceIndex_lt_of_same_base (l : List CXXMethodDecl) (i j : Nat)
    (Mi Mj : CXXMethodDecl) (hij : i < j) (hMi : l[i]? = some Mi)
    (hi : eligible Mi = true)
    (hbase : valident Mi.nameAsString = valident Mj.nameAsString) :
    occurrenceIndex (l.take i) Mi < occurrenceIndex (l.take j) Mj := by
  unfold occurrenceIndex
  rw [← hbase]
  have h1 := baseCount_take_mono l (valident Mi.nameAsString) (i + 1) j hij
  rw [take_succ_of_getElem? l i Mi hMi, baseCount_append_singleton] at h1
  simp only [hi, Bool.true_and, beq_self_eq_true, if_true] at h1
  omega

/-! ## Lemmas on sequences of blocks and on the entry points -/

theorem runAll_append (Rs Ss : List MatchResult) (out : String) :
    runAll (Rs ++ Ss) out = runAll Ss (runAll Rs out) := by
  simp [runAll, List.foldl_append]

theorem head?_wrapperText (C : CXXRecordDecl) : (wrapperText C).data.head? = some 'n' := by
  simp only [wrapperText, wrapperHead, String.append_assoc, String.data_append]
  rfl

theorem head?_run_empty (R : MatchResult) : (run R "").data.head? ≠ some 'f' := by
  cases R with
  | mk node =>
    cases node with
    | none => simp [run]
    | some C =>
      have h := run_matched_eq C ""
      simp only [matched, String.empty_append] at h
      rw [h, head?_wrapperText]
      decide

theorem head?_join_ne (l : List String) (c : Char) (h : ∀ s ∈ l, s.data.head? ≠ some c) :
    (String.join l).data.head? ≠ some c := by
  induction l with
  | nil => simp [join_nil]
  | cons x xs ih =>
    rw [join_cons, String.data_append]
    have hx := h x (List.mem_cons_self _ _)
    have hxs := ih (fun s hs => h s (List.mem_cons_of_mem _ hs))
    cases hd : x.data with
    | nil => simpa using hxs
    | cons a as =>
      rw [hd] at hx
      simpa using hx

theorem runAll_ne_fail (Rs : List MatchResult) : runAll Rs "" ≠ "fail" := by
  intro h
  rw [runAll_eq_join, String.empty_append] at h
  have hj := head?_join_ne (Rs.map (fun R => run R "")) 'f' (by
    intro s hs
    rw [List.mem_map] at hs
    obtain ⟨R, _, rfl⟩ := hs
    exact head?_run_empty R)
  rw [h] at hj
  exact hj rfl

theorem foldl_include (sources : List String) (out : String) :
    sources.foldl (fun o f => o ++ "#include \"" ++ f ++ "\"\n") out =
      out ++ String.join (sources.map (fun f => "#include \"" ++ f ++ "\"\n")) := by
  induction sources generalizing out with
  | nil => simp [join_nil]
  | cons f rest ih =>
    rw [List.foldl_cons, ih, List.map_cons, join_cons]
    simp only [String.append_assoc]

theorem foldl_units (units : List (List Decl)) (out : String) :
    units.foldl (fun o tu => runAll (MatchFinder.matchDecls [] tu) o) out =
      out ++ units.foldl (fun o tu => runAll (MatchFinder.matchDecls [] tu) o) "" := by
  induction units generalizing out with
  | nil => simp
  | cons tu rest ih =>
    rw [List.foldl_cons, List.foldl_cons, ih (runAll _ out), ih (runAll _ ""),
      runAll_eq_join _ out, runAll_eq_join _ "", String.empty_append, String.append_assoc]

/-! ## Lemmas on the class matcher -/

theorem any_namespaceDeclIsAnonymous (ancestors : List Decl) :
    ancestors.any namespaceDeclIsAnonymous = true ↔
      ∃ ds, Decl.namespaceDecl true ds ∈ ancestors := by
  rw [List.any_eq_true]
  constructor
  · rintro ⟨A, hA, h⟩
    cases A with
    | namespaceDecl a ds =>
      simp only [namespaceDeclIsAnonymous] at h
      subst h
      exact ⟨ds, hA⟩
    | cxxRecordDecl q n m ds => simp [namespaceDeclIsAnonymous] at h
    | cxxMethodDecl M ds => simp [namespaceDeclIsAnonymous] at h
    | otherDecl ds => simp [namespaceDeclIsAnonymous] at h
  · rintro ⟨ds, h⟩
    exact ⟨_, h, rfl⟩

theorem any_cxxMethodDeclIsPublic (l : List Decl) :
    l.any cxxMethodDeclIsPublic = true ↔
      ∃ d ∈ l, ∃ M ds, d = Decl.cxxMethodDecl M ds ∧ M.access = AccessSpecifier.AS_public := by
  rw [List.any_eq_true]
  constructor
  · rintro ⟨d, hd, h⟩
    cases d with
    | namespaceDecl a ds => simp [cxxMethodDeclIsPublic] at h
    | cxxRecordDecl q n m ds => simp [cxxMethodDeclIsPublic] at h
    | cxxMethodDecl M ds =>
      simp only [cxxMethodDeclIsPublic, beq_iff_eq] at h
      exact ⟨_, hd, M, ds, rfl, h⟩
    | otherDecl ds => simp [cxxMethodDeclIsPublic] at h
  · rintro ⟨d, hd, M, ds, rfl, h⟩
    exact ⟨_, hd, by simp [cxxMethodDeclIsPublic, h]⟩

theorem ClassMatcher_iff (ancestors : List Decl) (D : Decl) :
    ClassMatcher ancestors D = true ↔
      (∃ q n ds, D = Decl.cxxRecordDecl q n true ds) ∧
        (¬ ∃ ds, Decl.namespaceDecl true ds ∈ ancestors) ∧
        (∃ d ∈ Decl.descendants D, ∃ M ds,
          d = Decl.cxxMethodDecl M ds ∧ M.access = AccessSpecifier.AS_public) := by
  cases D with
  | namespaceDecl a ds => simp [ClassMatcher]
  | cxxMethodDecl M ds => simp [ClassMatcher]
  | otherDecl ds => simp [ClassMatcher]
  | cxxRecordDecl q n m ds =>
    simp only [ClassMatcher, Bool.and_eq_true, Bool.not_eq_true', Decl.descendants]
    rw [any_cxxMethodDeclIsPublic, ← Bool.not_eq_true, any_namespaceDeclIsAnonymous]
    constructor
    · rintro ⟨⟨hm, ha⟩, hd⟩
      subst hm
      exact ⟨⟨q, n, ds, rfl⟩, ha, hd⟩
    · rintro ⟨⟨q2, n2, ds2, heq⟩, ha, hd⟩
      injection heq with _ _ hm _
      exact ⟨⟨hm, ha⟩, hd⟩

/-! ## Lemmas on the pieces of a block -/

theorem join_append (a b : List String) :
    String.join (a ++ b) = String.join a ++ String.join b := by
  induction a with
  | nil => simp [join_nil]
  | cons x xs ih => rw [List.cons_append, join_cons, join_cons, ih, String.append_assoc]

theorem join_blockLines (C : CXXRecordDecl) : String.join (blockLines C) = wrapperText C := by
  unfold blockLines wrapperText afterStubLines
  rw [join_append, join_append, join_append]
  cases C.methods.any (fun M => eligible M && isConstructor M) <;>
    simp only [join_cons, join_nil, wrapperHead, wrapperTail, selectorDecl, pobjDecl, objDecl,
      refConstructorDecl, String.append_assoc, String.append_empty, String.empty_append,
      Bool.false_eq_true, if_false, if_true]

theorem lastChars_append (n : Nat) (x lit : String) (h : n ≤ lit.data.length) :
    lastChars n (x ++ lit) = lastChars n lit := by
  unfold lastChars
  rw [String.data_append, List.reverse_append,
    List.take_append_of_le_length (by simpa using h)]

theorem ne_of_lastChars (n : Nat) (a b : String) (h : lastChars n a ≠ lastChars n b) :
    a ≠ b :=
  fun e => h (by rw [e])

theorem lastChars_pobjDecl (C : CXXRecordDecl) :
    lastChars 3 (pobjDecl C) = lastChars 3 "j;\n" := by
  unfold pobjDecl
  rw [lastChars_append 3 _ _ (by decide)]
  decide

theorem lastChars_objDecl (C : CXXRecordDecl) :
    lastChars 3 (objDecl C) = lastChars 3 "t.\n" := by
  unfold objDecl
  rw [lastChars_append 3 _ _ (by decide)]
  decide

theorem lastChars_refConstructorDecl (C : CXXRecordDecl) :
    lastChars 4 (refConstructorDecl C) = lastChars 4 "er.\n" := by
  unfold refConstructorDecl
  rw [lastChars_append 4 _ _ (by decide)]
  decide

theorem lastChars_refConstructorDecl_three (C : CXXRecordDecl) :
    lastChars 3 (refConstructorDecl C) = lastChars 3 "r.\n" := by
  unfold refConstructorDecl
  rw [lastChars_append 3 _ _ (by decide)]
  decide

theorem lastChars_classLine (C : CXXRecordDecl) :
    lastChars 3 ("class " ++ rfcls C ++ " \x7b\n") = lastChars 3 " \x7b\n" := by
  rw [lastChars_append 3 _ _ (by decide)]

theorem lastChars_stubDecl (C : CXXRecordDecl) (M : CXXMethodDecl) (idx : Nat) :
    lastChars 3 (stubDecl C M idx) = lastChars 3 ");\n" := by
  unfold stubDecl
  rw [lastChars_append 3 _ _ (by decide)]
  decide

theorem lastChars_selectorLine (C : CXXRecordDecl) :
    lastChars 3 ("  " ++ rfcls C ++ "(unsigned ctr);\n") = lastChars 3 ");\n" := by
  rw [lastChars_append 3 _ _ (by decide)]
  decide

theorem lastChars_usingLine (C : CXXRecordDecl) :
    lastChars 3 ("  using mptr = void (" ++ rfcls C ++ "::*)();\n") = lastChars 3 ");\n" := by
  rw [lastChars_append 3 _ _ (by decide)]
  decide

theorem lastChars_rouletteLine (n : Nat) :
    lastChars 3 ("  static mptr roulette[" ++ toString n ++ "];\n") = lastChars 3 "];\n" := by
  rw [lastChars_append 3 _ _ (by decide)]

theorem mem_writtenStubsFrom (C : CXXRecordDecl) (rest before : List CXXMethodDecl)
    (s : String) (h : s ∈ writtenStubsFrom C before rest) :
    ∃ M idx, M ∈ rest ∧ eligible M = true ∧ s = stubDecl C M idx := by
  induction rest generalizing before with
  | nil => simp [writtenStubsFrom] at h
  | cons M rest ih =>
    simp only [writtenStubsFrom] at h
    cases hel : eligible M
    · rw [hel] at h
      simp only [Bool.false_eq_true, if_false] at h
      obtain ⟨M2, idx, hM2, h2, h3⟩ := ih _ h
      exact ⟨M2, idx, List.mem_cons_of_mem _ hM2, h2, h3⟩
    · rw [hel] at h
      simp only [if_true, List.mem_cons] at h
      rcases h with h | h
      · exact ⟨M, _, List.mem_cons_self _ _, hel, h⟩
      · obtain ⟨M2, idx, hM2, h2, h3⟩ := ih _ h
        exact ⟨M2, idx, List.mem_cons_of_mem _ hM2, h2, h3⟩

theorem after_head_cases (C : CXXRecordDecl) (s : String)
    (h : s ∈ writtenStubsFrom C [] C.methods ++ afterStubLines C) :
    lastChars 3 s = lastChars 3 ");\n" ∨
      s = "  // Creates obj internally, using indicated constructor.\n" ∨
      lastChars 3 s = lastChars 3 "];\n" ∨ s = "\x7d;\n" ∨
      s = "\x7d // namespace ramfuzz\n" := by
  rw [List.mem_append] at h
  rcases h with h | h
  · obtain ⟨M, idx, _, _, rfl⟩ := mem_writtenStubsFrom C _ _ s h
    exact Or.inl (lastChars_stubDecl C M idx)
  · unfold afterStubLines at h
    rw [List.mem_append] at h
    rcases h with h | h
    · cases hc : C.methods.any (fun M => eligible M && isConstructor M)
      · rw [hc] at h
        simp at h
      · rw [hc] at h
        simp only [if_true, List.mem_cons, List.mem_singleton, List.not_mem_nil, or_false] at h
        rcases h with h | h
        · exact Or.inr (Or.inl h)
        · rw [h]
          exact Or.inl (lastChars_selectorLine C)
    · simp only [List.mem_cons, List.mem_singleton, List.not_mem_nil, or_false] at h
      rcases h with h | h | h | h
      · rw [h]
        exact Or.inl (lastChars_usingLine C)
      · rw [h]
        exact Or.inr (Or.inr (Or.inl (lastChars_rouletteLine _)))
      · exact Or.inr (Or.inr (Or.inr (Or.inl h)))
      · exact Or.inr (Or.inr (Or.inr (Or.inr h)))

theorem count_eq_one_of (pre post : List String) (T : String)
    (h : ∀ s ∈ pre ++ post, s ≠ T) : (pre ++ T :: post).count T = 1 := by
  have h1 : pre.count T = 0 :=
    List.count_eq_zero.mpr (fun hm => h T (List.mem_append_left _ hm) rfl)
  have h2 : post.count T = 0 :=
    List.count_eq_zero.mpr (fun hm => h T (List.mem_append_right _ hm) rfl)
  rw [List.count_append, List.count_cons_self, h1, h2]

theorem count_pobjDecl (C : CXXRecordDecl) : (blockLines C).count (pobjDecl C) = 1 := by
  have hT := lastChars_pobjDecl C
  have key := count_eq_one_of
    ["namespace ramfuzz \x7b\n", "class " ++ rfcls C ++ " \x7b\n", " private:\n",
      "  // Owns internally created objects. Must precede obj declaration.\n"]
    ([" public:\n", objDecl C, refConstructorDecl C] ++
      (writtenStubsFrom C [] C.methods ++ afterStubLines C)) (pobjDecl C)
  apply key
  intro s hs
  apply ne_of_lastChars 3
  rw [hT]
  simp only [List.mem_append, List.mem_cons, List.mem_singleton, List.not_mem_nil,
    or_false] at hs
  rcases hs with (h | h | h | h) | (h | h | h) | h
  · rw [h]; decide
  · rw [h, lastChars_classLine]; decide
  · rw [h]; decide
  · rw [h]; decide
  · rw [h]; decide
  · rw [h, lastChars_objDecl]; decide
  · rw [h, lastChars_refConstructorDecl_three]; decide
  · rcases after_head_cases C s (List.mem_append.mpr h) with h | h | h | h | h
    · rw [h]; decide
    · rw [h]; decide
    · rw [h]; decide
    · rw [h]; decide
    · rw [h]; decide

theorem count_objDecl (C : CXXRecordDecl) : (blockLines C).count (objDecl C) = 1 := by
  have hT := lastChars_objDecl C
  have key := count_eq_one_of
    ["namespace ramfuzz \x7b\n", "class " ++ rfcls C ++ " \x7b\n", " private:\n",
      "  // Owns internally created objects. Must precede obj declaration.\n",
      pobjDecl C, " public:\n"]
    ([refConstructorDecl C] ++
      (writtenStubsFrom C [] C.methods ++ afterStubLines C)) (objDecl C)
  apply key
  intro s hs
  apply ne_of_lastChars 3
  rw [hT]
  simp only [List.mem_append, List.mem_cons, List.mem_singleton, List.not_mem_nil,
    or_false] at hs
  rcases hs with (h | h | h | h | h | h) | h | h
  · rw [h]; decide
  · rw [h, lastChars_classLine]; decide
  · rw [h]; decide
  · rw [h]; decide
  · rw [h, lastChars_pobjDecl]; decide
  · rw [h]; decide
  · rw [h, lastChars_refConstructorDecl_three]; decide
  · rcases after_head_cases C s (List.mem_append.mpr h) with h | h | h | h | h
    · rw [h]; decide
    · rw [h]; decide
    · rw [h]; decide
    · rw [h]; decide
    · rw [h]; decide

theorem count_refConstructorDecl (C : CXXRecordDecl) :
    (blockLines C).count (refConstructorDecl C) = 1 := by
  have hT := lastChars_refConstructorDecl_three C
  have hT4 := lastChars_refConstructorDecl C
  have key := count_eq_one_of
    ["namespace ramfuzz \x7b\n", "class " ++ rfcls C ++ " \x7b\n", " private:\n",
      "  // Owns internally created objects. Must precede obj declaration.\n",
      pobjDecl C, " public:\n", objDecl C]
    (writtenStubsFrom C [] C.methods ++ afterStubLines C) (refConstructorDecl C)
  apply key
  intro s hs
  simp only [List.mem_append, List.mem_cons, List.mem_singleton, List.not_mem_nil,
    or_false] at hs
  rcases hs with (h | h | h | h | h | h | h) | h
  · apply ne_of_lastChars 3; rw [hT, h]; decide
  · apply ne_of_lastChars 3; rw [hT, h, lastChars_classLine]; decide
  · apply ne_of_lastChars 3; rw [hT, h]; decide
  · apply ne_of_lastChars 3; rw [hT, h]; decide
  · apply ne_of_lastChars 3; rw [hT, h, lastChars_pobjDecl]; decide
  · apply ne_of_lastChars 3; rw [hT, h]; decide
  · apply ne_of_lastChars 3; rw [hT, h, lastChars_objDecl]; decide
  · rcases after_head_cases C s (List.mem_append.mpr h) with h | h | h | h | h
    · apply ne_of_lastChars 3; rw [hT, h]; decide
    · apply ne_of_lastChars 4; rw [hT4, h]; decide
    · apply ne_of_lastChars 3; rw [hT, h]; decide
    · apply ne_of_lastChars 3; rw [hT, h]; decide
    · apply ne_of_lastChars 3; rw [hT, h]; decide

/-! ## The claims, continued -/

/-- C15 (fails as stated). The image of the space is the underscore, which is
not a lowercase letter, so not every image of the table lies in `a`..`z`. -/
theorem table_image_of_space_not_lowercase :
    valident.table.lookup ' ' = some '_' ∧
      Char.isLower '_' = false ∧
      ¬ ((valident.table.map Prod.snd).Nodup ∧
        (valident.table.map Prod.snd).all Char.isLower = true) := by
  refine ⟨?_, ?_, ?_⟩ <;> decide

/-- C15 (amended). The table has 19 entries with pairwise different keys, the
19 symbol characters; their images are pairwise different; the image of the
space is the underscore and each of the other 18 images is a lowercase letter
in `a`..`z`. -/
theorem table_images_distinct_lowercase_or_underscore :
    valident.table.length = 19 ∧
      valident.table.map Prod.fst = " =+-*/%&|^<>~![]().".data ∧
      (valident.table.map Prod.fst).Nodup ∧
      (valident.table.map Prod.snd).Nodup ∧
      valident.table.head? = some (' ', '_') ∧
      (valident.table.tail.map Prod.snd).all
        (fun d => Char.isLower d && decide ('a' ≤ d) && decide (d ≤ 'z')) = true ∧
      valident.table.tail.length = 18 := by
  refine ⟨?_, ?_, ?_, ?_, ?_, ?_, ?_⟩ <;> decide

/-- C20. `valident` is idempotent: mangling a mangled name changes nothing,
because no image of the substitution table is one of its keys. -/
theorem valident_idempotent (s : String) :
    valident (valident s) = valident s ∧
      (valident.table.map Prod.snd).all
        (fun d => (valident.table.lookup d).isNone) = true := by
  refine ⟨?_, by decide⟩
  apply String.ext
  rw [valident_data, valident_data, List.map_map]
  apply List.map_congr_left
  intro c _
  exact substitution_idem c



/-- C16. In a class with fewer than `2 ^ 32` eligible members, two eligible
members at positions `i < j` never receive the same pair of mangled base and
printed index; when they have the same raw name (or just the same mangled
base) the later one receives the strictly larger index. -/
theorem base_index_pairs_distinct (C : CXXRecordDecl) (out : String)
    (hbound : (C.methods.filter eligible).length < 2 ^ 32)
    (i j : Nat) (Mi Mj : CXXMethodDecl) (hij : i < j)
    (hMi : C.methods[i]? = some Mi) (hMj : C.methods[j]? = some Mj)
    (hi : eligible Mi = true) (hj : eligible Mj = true) :
    (valident Mi.nameAsString,
        (runLoop C (C.methods.take i) (runEnter C out)).namecount (valident Mi.nameAsString)) ≠
      (valident Mj.nameAsString,
        (runLoop C (C.methods.take j) (runEnter C out)).namecount (valident Mj.nameAsString)) ∧
      (Mi.nameAsString = Mj.nameAsString →
        (runLoop C (C.methods.take i) (runEnter C out)).namecount (valident Mi.nameAsString) <
          (runLoop C (C.methods.take j) (runEnter C out)).namecount
            (valident Mj.nameAsString)) ∧
      (valident Mi.nameAsString = valident Mj.nameAsString →
        (runLoop C (C.methods.take i) (runEnter C out)).namecount (valident Mi.nameAsString) <
          (runLoop C (C.methods.take j) (runEnter C out)).namecount
            (valident Mj.nameAsString)) := by
  rw [namecount_at_member C out hbound i Mi hMi hi, namecount_at_member C out hbound j Mj hMj hj]
  have hlt : valident Mi.nameAsString = valident Mj.nameAsString →
      occurrenceIndex (C.methods.take i) Mi < occurrenceIndex (C.methods.take j) Mj :=
    occurrenceIndex_lt_of_same_base C.methods i j Mi Mj hij hMi hi
  refine ⟨?_, ?_, hlt⟩
  · intro heq
    have hb : valident Mi.nameAsString = valident Mj.nameAsString := congrArg Prod.fst heq
    have hn : occurrenceIndex (C.methods.take i) Mi = occurrenceIndex (C.methods.take j) Mj :=
      congrArg Prod.snd heq
    have := hlt hb
    omega
  · intro hname
    exact hlt (by rw [hname])

/-- Witness of C16: the first and the third `step` of `Stepper`. -/
theorem base_index_pairs_distinct_witness :
    (Stepper.methods.filter eligible).length < 2 ^ 32 ∧ 0 < 2 ∧
      Stepper.methods[0]? = some (publicMethod "step") ∧
      Stepper.methods[2]? = some (publicMethod "step") ∧
      eligible (publicMethod "step") = true ∧
      ((valident (publicMethod "step").nameAsString,
          (runLoop Stepper (Stepper.methods.take 0) (runEnter Stepper "")).namecount
            (valident (publicMethod "step").nameAsString)) ≠
        (valident (publicMethod "step").nameAsString,
          (runLoop Stepper (Stepper.methods.take 2) (runEnter Stepper "")).namecount
            (valident (publicMethod "step").nameAsString)) ∧
        ((publicMethod "step").nameAsString = (publicMethod "step").nameAsString →
          (runLoop Stepper (Stepper.methods.take 0) (runEnter Stepper "")).namecount
              (valident (publicMethod "step").nameAsString) <
            (runLoop Stepper (Stepper.methods.take 2) (runEnter Stepper "")).namecount
              (valident (publicMethod "step").nameAsString)) ∧
        (valident (publicMethod "step").nameAsString =
            valident (publicMethod "step").nameAsString →
          (runLoop Stepper (Stepper.methods.take 0) (runEnter Stepper "")).namecount
              (valident (publicMethod "step").nameAsString) <
            (runLoop Stepper (Stepper.methods.take 2) (runEnter Stepper "")).namecount
              (valident (publicMethod "step").nameAsString))) :=
  ⟨by decide, by decide, by decide, by decide, by decide,
    base_index_pairs_distinct Stepper "" (by decide) 0 2 (publicMethod "step")
      (publicMethod "step") (by decide) (by decide) (by decide) (by decide) (by decide)⟩



/-- C12. The single-unit entry point returns exactly `fail` when the front end
fails, and something else whenever it succeeds: the text written for any
finite sequence of matched classes, the empty one included, is never `fail`. -/
theorem ramfuzz_fail_iff_front_end_fails (runToolOnCode : String → ToolOnCode)
    (code : String) :
    (ramfuzz runToolOnCode code = "fail" ↔ (runToolOnCode code).success = false) ∧
      (∀ Cs : List CXXRecordDecl, runAll (Cs.map matched) "" ≠ "fail") ∧
      runAll [] "" = "" := by
  refine ⟨?_, fun Cs => runAll_ne_fail _, rfl⟩
  unfold ramfuzz
  cases hs : (runToolOnCode code).success
  · simp
  · simpa using runAll_ne_fail _

/-- C14. The multi-unit entry point returns the status of the tool unchanged
and writes, before any per-class block, the line `#include <memory>` followed
by one line `#include "f"` for each source identifier `f`, in the order of the
list: `1 + length(sources)` lines. -/
theorem ramfuzzTool_preamble_then_blocks (tool : ClangTool) (sources : List String)
    (out : String) :
    (ramfuzzTool tool sources out).1 = tool.status ∧
      (ramfuzzTool tool sources out).2 =
        out ++
          String.join
            ("#include <memory>\n" :: sources.map (fun f => "#include \"" ++ f ++ "\"\n")) ++
          tool.units.foldl (fun o tu => runAll (MatchFinder.matchDecls [] tu) o) "" ∧
      ("#include <memory>\n" ::
        sources.map (fun f => "#include \"" ++ f ++ "\"\n")).length = 1 + sources.length := by
  refine ⟨rfl, ?_, ?_⟩
  · show tool.units.foldl (fun o tu => runAll (MatchFinder.matchDecls [] tu) o)
      (sources.foldl (fun o f => o ++ "#include \"" ++ f ++ "\"\n")
        (out ++ "#include <memory>\n")) = _
    rw [foldl_units, foldl_include, join_cons]
    simp only [String.append_assoc]
  · simp [Nat.add_comm]

/-- C17. Running `run` on a sequence of matched classes in turn writes the
concatenation of the texts written for each class alone; the block of a class
is the same whatever classes were processed before it. -/
theorem blocks_are_independent (Cs : List CXXRecordDecl) (out : String) :
    runAll (Cs.map matched) out =
        out ++ String.join (Cs.map (fun C => run (matched C) "")) ∧
      (∀ (C : CXXRecordDecl),
        runAll ((Cs ++ [C]).map matched) out =
          runAll (Cs.map matched) out ++ run (matched C) "") := by
  refine ⟨?_, ?_⟩
  · rw [runAll_eq_join, List.map_map]
    rfl
  · intro C
    rw [List.map_append, runAll_append]
    show run (matched C) (runAll (Cs.map matched) out) = _
    rw [run_eq_append]




/-- C11. `ClassMatcher` selects a node, and the finder then hands it to `run`
bound as a class, if and only if the node is a class with
`isExpansionInMainFile()`, no anonymous namespace is among its ancestors, and
some proper descendant is a member function with public access.  Scenario B:
the class `Locked`, with only a private constructor and protected methods, is
not selected and no text is written for a unit that holds just this class. -/
theorem ClassMatcher_selects_iff (ancestors : List Decl) (D : Decl) :
    (ClassMatcher ancestors D = true ↔
        (∃ q n ds, D = Decl.cxxRecordDecl q n true ds) ∧
          (¬ ∃ ds, Decl.namespaceDecl true ds ∈ ancestors) ∧
          (∃ d ∈ Decl.descendants D, ∃ M ds,
            d = Decl.cxxMethodDecl M ds ∧ M.access = AccessSpecifier.AS_public)) ∧
      ((∃ C, Decl.getAsCXXRecordDecl D = some C ∧
          runAll (MatchFinder.visit ancestors D) "" = run (matched C) "") ↔
        ClassMatcher ancestors D = true) ∧
      (ClassMatcher ancestors D = false ↔ MatchFinder.visit ancestors D = []) ∧
      ClassMatcher [] Locked = false ∧
      runAll (MatchFinder.matchDecls [] [Locked]) "" = "" := by
  refine ⟨ClassMatcher_iff ancestors D, ?_, ?_, by decide, by decide⟩
  · constructor
    · rintro ⟨C, hC, hrun⟩
      cases hm : ClassMatcher ancestors D
      · exfalso
        have hv : MatchFinder.visit ancestors D = [] := by simp [MatchFinder.visit, hm]
        rw [hv] at hrun
        have h1 : runAll [] "" = "" := rfl
        rw [h1] at hrun
        have h2 := head?_wrapperText C
        have h3 := run_matched_eq C ""
        rw [String.empty_append] at h3
        rw [← h3, ← hrun] at h2
        simp at h2
      · rfl
    · intro hm
      obtain ⟨⟨q, n, ds, rfl⟩, _, _⟩ := (ClassMatcher_iff ancestors _).mp hm
      refine ⟨_, rfl, ?_⟩
      simp only [MatchFinder.visit, hm, if_true]
      rfl
  · cases hm : ClassMatcher ancestors D <;> simp [MatchFinder.visit, hm]

/-- C18. There is a class that passes `ClassMatcher` and still gets an empty
wrapper, with no stub and a dispatch table of size 0.  Two such classes are
`Outer`, whose only public member function belongs to the nested class
`Inner`, and `Factory`, whose only public member function is static. -/
theorem matched_class_with_empty_wrapper :
    (∃ (D : Decl) (C : CXXRecordDecl),
        ClassMatcher [] D = true ∧ Decl.getAsCXXRecordDecl D = some C ∧
          writtenStubsFrom C [] C.methods = [] ∧
          run (matched C) "" = wrapperHead C ++ wrapperTail C 0) ∧
      (ClassMatcher [] Outer = true ∧
        Decl.getAsCXXRecordDecl Outer =
          some { qualifiedNameAsString := "Outer", nameAsString := "Outer", methods := [] } ∧
        runAll (MatchFinder.visit [] Outer) "" =
          "namespace ramfuzz \x7b\nclass RF__Outer \x7b\n private:\n" ++
          "  // Owns internally created objects. Must precede obj declaration.\n" ++
          "  std::unique_ptr<Outer> pobj;\n public:\n" ++
          "  Outer& obj; // Object under test.\n  RF__Outer(Outer& obj) \n" ++
          "    : obj(obj) \x7b\x7d // Object already created by caller.\n" ++
          "  using mptr = void (RF__Outer::*)();\n  static mptr roulette[0];\n" ++
          "\x7d;\n\x7d // namespace ramfuzz\n") ∧
      (ClassMatcher [] Factory = true ∧
        Decl.getAsCXXRecordDecl Factory =
          some { qualifiedNameAsString := "Factory", nameAsString := "Factory",
                 methods := [{ nameAsString := "make", kind := MethodKind.CXXMethod,
                               access := AccessSpecifier.AS_public, isInstance := false }] } ∧
        runAll (MatchFinder.visit [] Factory) "" =
          "namespace ramfuzz \x7b\nclass RF__Factory \x7b\n private:\n" ++
          "  // Owns internally created objects. Must precede obj declaration.\n" ++
          "  std::unique_ptr<Factory> pobj;\n public:\n" ++
          "  Factory& obj; // Object under test.\n  RF__Factory(Factory& obj) \n" ++
          "    : obj(obj) \x7b\x7d // Object already created by caller.\n" ++
          "  using mptr = void (RF__Factory::*)();\n  static mptr roulette[0];\n" ++
          "\x7d;\n\x7d // namespace ramfuzz\n") := by
  refine ⟨⟨Outer, { qualifiedNameAsString := "Outer", nameAsString := "Outer", methods := [] },
    ?_, ?_, ?_, ?_⟩, ⟨?_, ?_, ?_⟩, ⟨?_, ?_, ?_⟩⟩ <;> decide

/-- C19 (fails as stated). The class `Sealed` has four members, none eligible;
the wrapper written for it declares one constructor, the reference-accepting
one, not two. -/
theorem sealed_wrapper_has_one_constructor :
    Sealed.methods ≠ [] ∧
      Sealed.methods.all (fun M => !eligible M) = true ∧
      wrapperConstructorCount Sealed (run (matched Sealed) "") = 1 ∧
      ¬ (wrapperConstructorCount Sealed (run (matched Sealed) "") = 2) ∧
      run (matched Sealed) "" =
        "namespace ramfuzz \x7b\nclass RF__Sealed \x7b\n private:\n" ++
        "  // Owns internally created objects. Must precede obj declaration.\n" ++
        "  std::unique_ptr<ns::Sealed> pobj;\n public:\n" ++
        "  ns::Sealed& obj; // Object under test.\n" ++
        "  RF__Sealed(ns::Sealed& obj) \n" ++
        "    : obj(obj) \x7b\x7d // Object already created by caller.\n" ++
        "  using mptr = void (RF__Sealed::*)();\n  static mptr roulette[0];\n" ++
        "\x7d;\n\x7d // namespace ramfuzz\n" := by
  refine ⟨?_, ?_, ?_, ?_, ?_⟩ <;> decide

/-- C19 (amended). For every class that has members but none eligible, `run`
writes the minimal wrapper: the head with the two ownership declarations and
the one unconditional constructor, the reference-accepting one, followed
directly by the dispatch table of size 0; the flag `ctrs` stays false, so the
selector-accepting constructor is not written, and no stub is written.  The
block consists of twelve pieces, one of which is a constructor. -/
theorem members_none_eligible_minimal_wrapper (C : CXXRecordDecl) (out : String)
    (_hmem : C.methods ≠ []) (hnone : ∀ M ∈ C.methods, eligible M = false) :
    (runLoop C C.methods (runEnter C out)).ctrs = false ∧
      (runLoop C C.methods (runEnter C out)).mcount = 0 ∧
      writtenStubsFrom C [] C.methods = [] ∧
      (runSelector C (runLoop C C.methods (runEnter C out))).out = out ++ wrapperHead C ∧
      run (matched C) out = out ++ wrapperHead C ++ wrapperTail C 0 ∧
      blockLines C =
        ["namespace ramfuzz \x7b\n", "class " ++ rfcls C ++ " \x7b\n", " private:\n",
         "  // Owns internally created objects. Must precede obj declaration.\n",
         "  std::unique_ptr<" ++ cls C ++ "> pobj;\n",
         " public:\n",
         "  " ++ cls C ++ "& obj; // Object under test.\n",
         "  " ++ rfcls C ++ "(" ++ cls C ++ "& obj) \n" ++
           "    : obj(obj) \x7b\x7d // Object already created by caller.\n",
         "  using mptr = void (" ++ rfcls C ++ "::*)();\n",
         "  static mptr roulette[0];\n", "\x7d;\n", "\x7d // namespace ramfuzz\n"] ∧
      run (matched C) out = out ++ String.join (blockLines C) := by
  have hl := runLoop_none_eligible C C.methods (runEnter C out) hnone
  have hstubs : ∀ (rest before : List CXXMethodDecl),
      (∀ M ∈ rest, eligible M = false) → writtenStubsFrom C before rest = [] := by
    intro rest
    induction rest with
    | nil => intro before _; rfl
    | cons M rest ih =>
      intro before h
      simp only [writtenStubsFrom, h M (List.mem_cons_self _ _), Bool.false_eq_true, if_false]
      exact ih _ (fun M' hM' => h M' (List.mem_cons_of_mem _ hM'))
  have hsel : (runSelector C (runEnter C out)).out = out ++ wrapperHead C := by
    rw [runSelector_out, runEnter_out]
    simp [runEnter]
  have hany : C.methods.any (fun M => eligible M && isConstructor M) = false := by
    rw [List.any_eq_false]
    intro M hM
    simp [hnone M hM]
  have hfil : C.methods.filter (fun M => eligible M && !isConstructor M) = [] := by
    rw [List.filter_eq_nil_iff]
    intro M hM
    simp [hnone M hM]
  have hzero : toString (0 % UINT_MOD) = "0" := by decide
  refine ⟨by rw [hl]; rfl, by rw [hl]; rfl, hstubs _ _ hnone, by rw [hl]; exact hsel, ?_, ?_,
    by rw [run_matched_eq, join_blockLines]⟩
  · show runExit C (runSelector C (runLoop C C.methods (runEnter C out))) = _
    rw [hl]
    have hm : (runSelector C (runEnter C out)).mcount = 0 := by
      rw [runSelector_mcount]; rfl
    simp only [runExit, hsel, hm, wrapperTail, String.append_assoc]
  · unfold blockLines afterStubLines
    rw [hstubs _ _ hnone, hany, hfil]
    simp only [List.length_nil, hzero, Bool.false_eq_true, if_false, List.nil_append,
      List.cons_append, pobjDecl, objDecl, refConstructorDecl]
    rfl

/-- Witness of C19 (amended): the class `Sealed`. -/
theorem members_none_eligible_minimal_wrapper_witness :
    Sealed.methods ≠ [] ∧ (∀ M ∈ Sealed.methods, eligible M = false) ∧
      ((runLoop Sealed Sealed.methods (runEnter Sealed "")).ctrs = false ∧
        (runLoop Sealed Sealed.methods (runEnter Sealed "")).mcount = 0 ∧
        writtenStubsFrom Sealed [] Sealed.methods = [] ∧
        (runSelector Sealed (runLoop Sealed Sealed.methods (runEnter Sealed ""))).out =
          "" ++ wrapperHead Sealed ∧
        run (matched Sealed) "" = "" ++ wrapperHead Sealed ++ wrapperTail Sealed 0 ∧
        blockLines Sealed =
          ["namespace ramfuzz \x7b\n", "class " ++ rfcls Sealed ++ " \x7b\n", " private:\n",
           "  // Owns internally created objects. Must precede obj declaration.\n",
           "  std::unique_ptr<" ++ cls Sealed ++ "> pobj;\n",
           " public:\n",
           "  " ++ cls Sealed ++ "& obj; // Object under test.\n",
           "  " ++ rfcls Sealed ++ "(" ++ cls Sealed ++ "& obj) \n" ++
             "    : obj(obj) \x7b\x7d // Object already created by caller.\n",
           "  using mptr = void (" ++ rfcls Sealed ++ "::*)();\n",
           "  static mptr roulette[0];\n", "\x7d;\n", "\x7d // namespace ramfuzz\n"] ∧
        run (matched Sealed) "" = "" ++ String.join (blockLines Sealed)) :=
  ⟨by decide, by decide,
    members_none_eligible_minimal_wrapper Sealed "" (by decide) (by decide)⟩



/-- C13. For every class, whatever its members, the block written by `run` is
the sequence of pieces `blockLines`: the declaration of `pobj` is the fifth
piece, the declaration of `obj` the seventh and the reference-accepting
constructor the eighth, all before the first stub line, which can only come
ninth or later; each of the three occurs exactly once among the pieces; the
constructor initialises `obj` only and has an empty body. -/
theorem head_declarations_once_before_stubs (C : CXXRecordDecl) (out : String) :
    run (matched C) out = out ++ String.join (blockLines C) ∧
      blockLines C =
        ["namespace ramfuzz \x7b\n", "class " ++ rfcls C ++ " \x7b\n", " private:\n",
         "  // Owns internally created objects. Must precede obj declaration.\n",
         "  std::unique_ptr<" ++ cls C ++ "> pobj;\n",
         " public:\n",
         "  " ++ cls C ++ "& obj; // Object under test.\n",
         "  " ++ rfcls C ++ "(" ++ cls C ++ "& obj) \n" ++
           "    : obj(obj) \x7b\x7d // Object already created by caller.\n"] ++
        (writtenStubsFrom C [] C.methods ++ afterStubLines C) ∧
      (blockLines C).count ("  std::unique_ptr<" ++ cls C ++ "> pobj;\n") = 1 ∧
      (blockLines C).count ("  " ++ cls C ++ "& obj; // Object under test.\n") = 1 ∧
      (blockLines C).count
        ("  " ++ rfcls C ++ "(" ++ cls C ++ "& obj) \n" ++
          "    : obj(obj) \x7b\x7d // Object already created by caller.\n") = 1 ∧
      (writtenStubsFrom C [] C.methods).length = (C.methods.filter eligible).length := by
  refine ⟨?_, rfl, count_pobjDecl C, count_objDecl C, count_refConstructorDecl C, ?_⟩
  · rw [run_matched_eq, join_blockLines]
  · have key : ∀ (rest before : List CXXMethodDecl),
        (writtenStubsFrom C before rest).length = (rest.filter eligible).length := by
      intro rest
      induction rest with
      | nil => intro before; rfl
      | cons M rest ih =>
        intro before
        cases h : eligible M <;> simp [writtenStubsFrom, List.filter_cons, h, ih]
    exact key _ _


end RamFuzz
